import Mathlib

/-!
# Verification of the spherical-polyanya shortest-path engine

A shallow embedding of the core of the `spherical-polyanya` repository
(geometry kernel, polygon containment, point location, priority queue,
search-node construction, initial-node generation and the search driver),
together with theorems settling the specification claims C1-C10.

Numbers that the source stores in IEEE doubles are modelled as rationals.
The two transcendental leaves of the kernel (`Point.cosDistance`, which is
`Math.acos`-based, and `Point.fromVector`, which normalises a Cartesian
vector and recovers latitude/longitude with `asin`/`atan2`) are kept as
parameters of the embedding, bundled in the structure `Transc`: every
theorem below is proved for an arbitrary interpretation of these leaves,
so nothing is assumed about them.
-/

set_option maxHeartbeats 1000000

namespace SphPoly

/-- Modelled from the spec: the process-wide numeric tolerance `EPSILON`
(`constants.ts` is not part of the sources under `src/`; the spec only says
it is a fixed positive constant, so we fix a representative value). -/
def EPSILON : ℚ := 1 / 100000000

/-- `utils.isZero`: a number is (tolerantly) zero iff `|value| < EPSILON`. -/
def isZero (value : ℚ) : Bool := |value| < EPSILON

/-- `utils.isEqual`: tolerant equality of two numbers. -/
def isEqual (a b : ℚ) : Bool := isZero (a - b)

/-! ## The `Vector` class (exact 3-vector arithmetic) -/

/-- `Vector`: a Cartesian 3-vector. -/
structure Vec3 where
  x : ℚ
  y : ℚ
  z : ℚ
deriving DecidableEq, Repr

/-- `Vector.cross`. -/
def vcross (a b : Vec3) : Vec3 :=
  ⟨a.y * b.z - a.z * b.y, a.z * b.x - a.x * b.z, a.x * b.y - a.y * b.x⟩

/-- `Vector.dot`. -/
def vdot (a b : Vec3) : ℚ := a.x * b.x + a.y * b.y + a.z * b.z

/-- `Vector.scale`. -/
def vscale (a : Vec3) (factor : ℚ) : Vec3 := ⟨a.x * factor, a.y * factor, a.z * factor⟩

/-- `Vector.subtract` (`this - other`). -/
def vsub (a b : Vec3) : Vec3 := ⟨a.x - b.x, a.y - b.y, a.z - b.z⟩

/-- `Vector.negate`. -/
def vneg (a : Vec3) : Vec3 := ⟨-a.x, -a.y, -a.z⟩

/-! ## The `Point` class -/

/-- `Point`: a location on the sphere carrying latitude and longitude in
degrees together with the stored Cartesian triple.  The constructor's
degree-to-Cartesian conversion is transcendental; the embedding therefore
quantifies over arbitrary stored values. -/
structure Pt where
  lat : ℚ
  lon : ℚ
  vec : Vec3
deriving DecidableEq, Repr

/-- `Point.isPolar`: the latitude is within `EPSILON` of `±90`. -/
def isPolar (p : Pt) : Bool := isEqual |p.lat| 90

/-- `Point.equals` (the `src/src` implementation): latitudes agree within
`EPSILON`, and then either `this` is polar or longitudes agree. -/
def ptEquals (p other : Pt) : Bool :=
  if isZero (p.lat - other.lat) then isPolar p || isZero (p.lon - other.lon)
  else false

/-- `Orientation` of three points on the sphere. -/
inductive Orientation where
  | ANTICLOCKWISE
  | COLLINEAR
  | CLOCKWISE
deriving DecidableEq, Repr

/-- `Point.getOrientation`: collinear when any two arguments are equal,
otherwise the sign (within `±EPSILON`) of `(p1 × p2) · p3`. -/
def getOrientation (p1 p2 p3 : Pt) : Orientation :=
  if ptEquals p1 p2 || ptEquals p1 p3 || ptEquals p2 p3 then .COLLINEAR
  else
    let d := vdot (vcross p1.vec p2.vec) p3.vec
    if d > EPSILON then .ANTICLOCKWISE
    else if d < -EPSILON then .CLOCKWISE
    else .COLLINEAR

/-- The transcendental leaves of the kernel, kept abstract:
`cosDist` models `Point.cosDistance` (the `Math.acos`-based arc length) and
`fromVec` models `Point.fromVector` (normalise, then recover lat/lon with
`asin`/`atan2`).  All theorems hold for every interpretation. -/
structure Transc where
  cosDist : Pt → Pt → ℚ
  fromVec : Vec3 → Pt

/-- A trivial interpretation of the transcendental leaves, used only to
evaluate witnesses on concrete inputs. -/
def trivT : Transc where
  cosDist := fun _ _ => 1
  fromVec := fun v => ⟨0, 0, v⟩

/-- `Point.distance`: zero for (tolerantly) equal points, otherwise the
`acos`-based arc length. -/
def distance (T : Transc) (p other : Pt) : ℚ :=
  if ptEquals p other then 0 else T.cosDist p other

/-- `Point.negate`: the antipodal point, built through `fromVector`. -/
def negatePt (T : Transc) (p : Pt) : Pt := T.fromVec (vneg p.vec)

/-- `Point.isBounded`: whether `this` lies on the minor arc from `r` to `l`. -/
def isBounded (T : Transc) (p r l : Pt) : Bool :=
  if ptEquals p r || ptEquals p l then true
  else
    let negated := negatePt T p
    if ptEquals negated r || ptEquals negated l then false
    else
      decide (vdot (vcross r.vec p.vec) (vcross r.vec l.vec) ≥ -EPSILON) &&
      decide (vdot (vcross l.vec p.vec) (vcross l.vec r.vec) ≥ -EPSILON)

/-- `Point.reflectPoint` at the vector level: with `N = r × l` (crucially,
not normalised), the result is `p - 2 (p · N) N`.  The old `Mesh.reflectPoint`
returns exactly this vector; the new `Point.reflectPoint` feeds it through
`fromVector`. -/
def reflectVec (p r l : Vec3) : Vec3 :=
  vsub p (vscale (vcross r l) (2 * vdot p (vcross r l)))

/-- `Point.reflectPoint` (the new version): the reflected vector converted
back to a point through `fromVector`. -/
def reflectPoint (T : Transc) (p r l : Pt) : Pt :=
  T.fromVec (reflectVec p.vec r.vec l.vec)

/-- `Point.asKey`: the quantised dedupe key (`Math.round(val / EPSILON)` on
both coordinates; the string formatting of the two integers is injective, so
the pair itself is kept). -/
def asKey (p : Pt) : ℤ × ℤ := (round (p.lat / EPSILON), round (p.lon / EPSILON))

/-! ## Vertices, polygons and the mesh -/

/-- `Vertex`: a point with an id and the ordered incident-polygon id list
(`-1` marks an obstacle sector). -/
structure Vtx where
  id : ℤ
  pt : Pt
  pIndices : List ℤ
deriving DecidableEq, Repr

/-- `Vertex.isCorner`: set when at least one incident sector is obstacle. -/
def Vtx.isCorner (v : Vtx) : Bool := v.pIndices.contains (-1)

/-- `Vertex.isAmbiguous`: set when more than one incident sector is obstacle. -/
def Vtx.isAmbiguous (v : Vtx) : Bool := 2 ≤ v.pIndices.count (-1)

/-- A default vertex, standing for the uninitialised slot of an
out-of-range array access. -/
def defaultVtx : Vtx := ⟨-1, ⟨0, 0, ⟨0, 0, 0⟩⟩, []⟩

/-- `Polygon` after `setVertices`/`setNeighbours`: the id, the resolved
vertex ring, and the neighbour ring kept as polygon ids (the source stores
object references; all downstream uses go through `.id` or a mesh lookup). -/
structure Poly where
  id : ℤ
  verts : List Vtx
  neighb : List ℤ
deriving DecidableEq, Repr

/-- The obstacle sentinel polygon (`Obstacle`, id `-1`). -/
def obstaclePoly : Poly := ⟨-1, [], []⟩

/-- `Mesh`: vertices and polygons indexed by id. -/
structure Mesh where
  vertices : List Vtx
  polygons : List Poly
deriving DecidableEq, Repr

/-- Resolve a polygon id against a mesh, as `setNeighbours`/`setPolygons`
do: `-1` (or an out-of-range id) gives the obstacle sentinel. -/
def polyOfId (m : Mesh) (i : ℤ) : Poly :=
  if h : 0 ≤ i ∧ i.toNat < m.polygons.length then m.polygons.get ⟨i.toNat, h.2⟩
  else obstaclePoly

/-- `PolyContainmentType`. -/
inductive PCType where
  | OUTSIDE
  | INSIDE
  | ON_EDGE
  | ON_VERTEX
deriving DecidableEq, Repr

/-- `PolyContainment`: the containment verdict, the adjacent polygon
(kept as an id; the source returns the object and only its id is used),
and the witnessing vertices. -/
structure PolyContainment where
  type : PCType
  adjPolyId : ℤ
  verts : List Vtx
deriving DecidableEq, Repr

/-- The loop body of `Polygon.containsPoint`, iterating `i` upward with the
pending `onEdge` flag.  The first argument counts the remaining iterations
(`poly.verts.length - i`), so the recursion is structural and the function
evaluates by kernel reduction. -/
def containsPointGo (T : Transc) (poly : Poly) (p : Pt) :
    Nat → Nat → Bool → PolyContainment
  | 0, _, onEdge =>
    if onEdge then
      ⟨.ON_EDGE, poly.neighb.getD 0 (-1),
        [poly.verts.getD ((poly.verts.length - 1) % poly.verts.length) defaultVtx,
          poly.verts.getD (0 % poly.verts.length) defaultVtx]⟩
    else ⟨.INSIDE, -1, []⟩
  | k + 1, i, onEdge =>
    if ptEquals p (poly.verts.getD (i % poly.verts.length) defaultVtx).pt then
      ⟨.ON_VERTEX, -1, [poly.verts.getD (i % poly.verts.length) defaultVtx]⟩
    else if onEdge then
      ⟨.ON_EDGE, poly.neighb.getD i (-1),
        [poly.verts.getD ((i - 1) % poly.verts.length) defaultVtx,
          poly.verts.getD (i % poly.verts.length) defaultVtx]⟩
    else if getOrientation (poly.verts.getD (i % poly.verts.length) defaultVtx).pt
          (poly.verts.getD ((i + 1) % poly.verts.length) defaultVtx).pt p =
            .COLLINEAR ∧
        isBounded T p (poly.verts.getD (i % poly.verts.length) defaultVtx).pt
          (poly.verts.getD ((i + 1) % poly.verts.length) defaultVtx).pt = true then
      containsPointGo T poly p k (i + 1) true
    else if getOrientation (poly.verts.getD (i % poly.verts.length) defaultVtx).pt
        (poly.verts.getD ((i + 1) % poly.verts.length) defaultVtx).pt p =
          .CLOCKWISE then
      ⟨.OUTSIDE, -1, []⟩
    else containsPointGo T poly p k (i + 1) onEdge

/-- `Polygon.containsPoint`: walk the ring once, classifying `p` against
each directed edge. -/
def containsPoint (T : Transc) (poly : Poly) (p : Pt) : PolyContainment :=
  containsPointGo T poly p poly.verts.length 0 false

/-- `PointLocationType`. -/
inductive PLType where
  | IN_OBSTACLE
  | IN_POLYGON
  | ON_BORDER
  | ON_EDGE
  | ON_AMBIG_CORNER_VERTEX
  | ON_UNAMBIG_CORNER_VERTEX
  | ON_NON_CORNER_VERTEX
deriving DecidableEq, Repr

/-- `PointLocation`. -/
structure PointLocation where
  type : PLType
  polygons : List Poly
  vertices : List Vtx
deriving DecidableEq, Repr

/-- The polygon scan of `Mesh.getPointLocation`. -/
def getPointLocationGo (T : Transc) (m : Mesh) (p : Pt) : List Poly → PointLocation
  | [] => ⟨.IN_OBSTACLE, [], []⟩
  | polygon :: rest =>
    match (containsPoint T polygon p).type with
    | .OUTSIDE => getPointLocationGo T m p rest
    | .INSIDE => ⟨.IN_POLYGON, [polygon], []⟩
    | .ON_EDGE =>
      if (containsPoint T polygon p).adjPolyId = -1 then
        ⟨.ON_BORDER, [polygon], (containsPoint T polygon p).verts⟩
      else
        ⟨.ON_EDGE, [polygon, polyOfId m ((containsPoint T polygon p).adjPolyId)],
          (containsPoint T polygon p).verts⟩
    | .ON_VERTEX =>
      ⟨if ((containsPoint T polygon p).verts.getD 0 defaultVtx).isCorner then
          if ((containsPoint T polygon p).verts.getD 0 defaultVtx).isAmbiguous then
            .ON_AMBIG_CORNER_VERTEX
          else .ON_UNAMBIG_CORNER_VERTEX
        else .ON_NON_CORNER_VERTEX,
        (((containsPoint T polygon p).verts.getD 0 defaultVtx).pIndices.filter
          (fun q => q ≠ -1)).map (polyOfId m),
        (containsPoint T polygon p).verts⟩

/-- `Mesh.getPointLocation`: scan every polygon in order. -/
def getPointLocation (T : Transc) (m : Mesh) (p : Pt) : PointLocation :=
  getPointLocationGo T m p m.polygons

/-! ## Search nodes -/

/-- `SearchNode`: parent link, root, interval endpoints, bounding mesh
vertices (when present), next polygon, accumulated cost `g`, heuristic `h`,
and the goal the node was built against. -/
inductive SNode : Type where
  | mk : Option SNode → Pt → Pt → Pt → Option Vtx → Option Vtx → Poly → ℚ → ℚ → Pt → SNode

def SNode.parent : SNode → Option SNode
  | .mk p _ _ _ _ _ _ _ _ _ => p

def SNode.root : SNode → Pt
  | .mk _ r _ _ _ _ _ _ _ _ => r

def SNode.right : SNode → Pt
  | .mk _ _ r _ _ _ _ _ _ _ => r

def SNode.left : SNode → Pt
  | .mk _ _ _ l _ _ _ _ _ _ => l

def SNode.rightVertex : SNode → Option Vtx
  | .mk _ _ _ _ rv _ _ _ _ _ => rv

def SNode.leftVertex : SNode → Option Vtx
  | .mk _ _ _ _ _ lv _ _ _ _ => lv

def SNode.nextPolygon : SNode → Poly
  | .mk _ _ _ _ _ _ np _ _ _ => np

def SNode.g : SNode → ℚ
  | .mk _ _ _ _ _ _ _ g _ _ => g

def SNode.h : SNode → ℚ
  | .mk _ _ _ _ _ _ _ _ h _ => h

def SNode.goal : SNode → Pt
  | .mk _ _ _ _ _ _ _ _ _ gl => gl

/-- `SearchNode.f = g + h`. -/
def SNode.f (n : SNode) : ℚ := n.g + n.h

/-- The `h`-value block of the `SearchNode` constructor: the spherical
Polyanya heuristic. -/
def computeH (T : Transc) (root right left goal : Pt) : ℚ :=
  if ptEquals root left || ptEquals root right then distance T root goal
  else
    let e := if getOrientation goal right left = .ANTICLOCKWISE then
        reflectPoint T goal right left
      else goal
    if getOrientation root right e = .CLOCKWISE then
      distance T root right + distance T right e
    else if getOrientation root left e = .ANTICLOCKWISE then
      distance T root left + distance T left e
    else distance T root e

/-- The `SearchNode` constructor: the two `assert`s (root not clockwise of
the interval; next polygon not the obstacle sentinel) fail fast as errors,
then the node is built with `h` computed by `computeH`. -/
def mkSearchNode (T : Transc) (parent : Option SNode) (root right left : Pt)
    (rightVertex leftVertex : Option Vtx) (nextPolygon : Poly) (g : ℚ)
    (goal : Pt) : Except String SNode :=
  if getOrientation root right left = .CLOCKWISE then
    .error "Root is on the right of edge"
  else if nextPolygon.id = -1 then
    .error "Next polygon must not be an obstacle"
  else
    .ok (.mk parent root right left rightVertex leftVertex nextPolygon g
      (computeH T root right left goal) goal)

/-- `SearchNode.lt`: the open-list ordering; smaller `f` first, ties by
larger `g`. -/
def sLt (a other : SNode) : Bool :=
  if a.f = other.f then decide (a.g > other.g) else decide (a.f < other.f)

/-- `SearchNode.genFinalNode`: assert the goal is already in the next
polygon, then build the terminal node after the visibility test through the
interval. -/
def genFinalNode (T : Transc) (node : SNode) : Except String SNode :=
  if (containsPoint T node.nextPolygon node.goal).type = .OUTSIDE then
    .error "Goal point is not yet in the next polygon"
  else
    let rightAngle := getOrientation node.root node.right node.goal
    let leftAngle := getOrientation node.root node.left node.goal
    if rightAngle ≠ .ANTICLOCKWISE then
      mkSearchNode T (some node) node.right node.goal node.goal none none
        node.nextPolygon (node.g + distance T node.root node.right) node.goal
    else if leftAngle ≠ .CLOCKWISE then
      mkSearchNode T (some node) node.left node.goal node.goal none none
        node.nextPolygon (node.g + distance T node.root node.left) node.goal
    else if rightAngle = .ANTICLOCKWISE ∧ leftAngle = .CLOCKWISE then
      mkSearchNode T (some node) node.root node.goal node.goal none none
        node.nextPolygon node.g node.goal
    else .error "Goal point is not visible from root point"

/-! ## The priority queue (binary min-heap over an array) -/

section PriorityQueue

variable {α : Type _}

/-- The heap index helpers of `PriorityQueue.ts`:
`parent(i) = ((i+1) >>> 1) - 1`, `leftChild(i) = (i << 1) + 1`,
`rightChild(i) = (i + 1) << 1`. -/
def pqParent (i : Nat) : Nat := (i + 1) / 2 - 1

def pqLeft (i : Nat) : Nat := 2 * i + 1

def pqRight (i : Nat) : Nat := 2 * i + 2

/-- Swap two positions of the backing array (`_swap`). -/
def pqSwap (l : List α) (i j : Nat) : List α :=
  match l[i]?, l[j]? with
  | some a, some b => (l.set i b).set j a
  | _, _ => l

/-- `_greater i j`: the comparator applied to the elements at `i` and `j`
(false when either index is out of range, which the source never does). -/
def pqGreater (ltb : α → α → Bool) (l : List α) (i j : Nat) : Bool :=
  match l[i]?, l[j]? with
  | some a, some b => ltb a b
  | _, _ => false

/-- `_siftUp`: bubble the element at `node` towards the root while it
precedes its parent. -/
def pqSiftUp (ltb : α → α → Bool) (l : List α) (node : Nat) : List α :=
  if 0 < node ∧ pqGreater ltb l node (pqParent node) = true then
    pqSiftUp ltb (pqSwap l node (pqParent node)) (pqParent node)
  else l
termination_by node
decreasing_by
  simp only [pqParent]
  omega

/-- `push` (one value): append, then sift up from the last slot. -/
def pqPush (ltb : α → α → Bool) (l : List α) (value : α) : List α :=
  pqSiftUp ltb (l ++ [value]) l.length

/-- `_siftDown`: push the element at `node` down while some child precedes
it, swapping with the preceding child (the right one when it precedes the
left one). -/
def pqSiftDown (ltb : α → α → Bool) (l : List α) (node : Nat) : List α :=
  if (pqLeft node < l.length ∧ pqGreater ltb l (pqLeft node) node = true) ∨
      (pqRight node < l.length ∧ pqGreater ltb l (pqRight node) node = true) then
    let maxChild :=
      if pqRight node < l.length ∧ pqGreater ltb l (pqRight node) (pqLeft node) = true then
        pqRight node
      else pqLeft node
    pqSiftDown ltb (pqSwap l node maxChild) maxChild
  else l
termination_by l.length - node
decreasing_by
  rename_i hcond
  have hlen : ∀ (l' : List α) (i j : Nat), (pqSwap l' i j).length = l'.length := by
    intro l' i j
    unfold pqSwap
    cases l'[i]? <;> cases l'[j]? <;> simp
  rw [hlen]
  have h1 : node < pqLeft node := by unfold pqLeft; omega
  have h2 : pqLeft node < pqRight node := by unfold pqLeft pqRight; omega
  split
  · rename_i hr
    rcases hcond with ⟨hl, _⟩ | ⟨hr2, _⟩ <;> omega
  · rcases hcond with ⟨hl, _⟩ | ⟨hr2, _⟩ <;> omega

/-- The child chosen by `_siftDown` for the swap (the `maxChild` local of
the source: the right child when it is in range and precedes the left
child, the left child otherwise). -/
def pqMaxChild (ltb : α → α → Bool) (l : List α) (node : Nat) : Nat :=
  if pqRight node < l.length ∧ pqGreater ltb l (pqRight node) (pqLeft node) = true then
    pqRight node
  else pqLeft node

/-- `pop`: fail on an empty queue; otherwise save the top, swap it with the
bottom when the heap has more than one element, drop the last slot, and
sift the new top down. -/
def pqPop (ltb : α → α → Bool) (l : List α) : Except String (α × List α) :=
  match l[0]? with
  | none => .error "Cannot pop from an empty priority queue"
  | some poppedValue =>
    let bottom := l.length - 1
    let l1 := if 0 < bottom then pqSwap l 0 bottom else l
    .ok (poppedValue, pqSiftDown ltb l1.dropLast 0)

/-- `isEmpty`. -/
def pqIsEmpty (l : List α) : Bool := l.length = 0

/-- The binary min-heap representation invariant: no element precedes its
parent under the comparator. -/
def heapInv (ltb : α → α → Bool) (l : List α) : Bool :=
  (List.range l.length).all (fun j => j = 0 || !pqGreater ltb l j (pqParent j))

/-- Propositional form of the heap invariant. -/
def InvP (ltb : α → α → Bool) (l : List α) : Prop :=
  ∀ j, 0 < j → j < l.length → pqGreater ltb l j (pqParent j) = false

/-- The sift-up intermediate state: the invariant holds except possibly at
the edge from `i` to its parent, and the children of `i` (if any) do not
precede `i`'s parent. -/
def UpAux (ltb : α → α → Bool) (i : Nat) (l : List α) : Prop :=
  (∀ j, 0 < j → j < l.length → j ≠ i →
    pqGreater ltb l j (pqParent j) = false) ∧
  (0 < i → ∀ c, c < l.length → pqParent c = i →
    pqGreater ltb l c (pqParent i) = false)

/-- The sift-down intermediate state: the invariant holds except possibly
on the edges from `i` to its children, and the children of `i` (if any) do
not precede `i`'s parent. -/
def DownAux (ltb : α → α → Bool) (i : Nat) (l : List α) : Prop :=
  (∀ j, 0 < j → j < l.length → pqParent j ≠ i →
    pqGreater ltb l j (pqParent j) = false) ∧
  (0 < i → ∀ c, c < l.length → pqParent c = i →
    pqGreater ltb l c (pqParent i) = false)

end PriorityQueue

/-! ## The search instance -/

/-- The history map (`Map<string, number>` keyed by `Point.asKey`),
embedded as an association list over the quantised key pair. -/
def Hist := List ((ℤ × ℤ) × ℚ)

/-- `Map.get` on the history. -/
def histGet (h : Hist) (k : ℤ × ℤ) : Option ℚ :=
  match h.find? (fun kv => kv.1 = k) with
  | some kv => some kv.2
  | none => none

/-- `Map.set` on the history (overwrite or insert). -/
def histSet (h : Hist) (k : ℤ × ℤ) (v : ℚ) : Hist :=
  (k, v) :: h.filter (fun kv => kv.1 ≠ k)

/-- The inner edge loop of `genInitNodes` over one polygon incident to the
start point: skip edges the start lies on and edges whose far side is
obstacle, otherwise construct a search node rooted at the start.  The first
`Nat` counts the remaining iterations (`n - i`) to keep the recursion
structural. -/
def genInitEdgeLoop (T : Transc) (m : Mesh) (polygon : Poly) (start e : Pt) :
    Nat → Nat → Except String (List SNode)
  | 0, _ => pure []
  | k + 1, i =>
    if getOrientation start (polygon.verts.getD i defaultVtx).pt
          (polygon.verts.getD ((i + 1) % polygon.verts.length) defaultVtx).pt =
            .COLLINEAR ∧
        isBounded T start (polygon.verts.getD i defaultVtx).pt
          (polygon.verts.getD ((i + 1) % polygon.verts.length) defaultVtx).pt =
            true then
      genInitEdgeLoop T m polygon start e k (i + 1)
    else if polygon.neighb.getD ((i + 1) % polygon.verts.length) (-1) = -1 then
      genInitEdgeLoop T m polygon start e k (i + 1)
    else do
      let node ← mkSearchNode T none start (polygon.verts.getD i defaultVtx).pt
        (polygon.verts.getD ((i + 1) % polygon.verts.length) defaultVtx).pt
        (some (polygon.verts.getD i defaultVtx))
        (some (polygon.verts.getD ((i + 1) % polygon.verts.length) defaultVtx))
        (polyOfId m (polygon.neighb.getD ((i + 1) % polygon.verts.length) (-1))) 0 e
      let rest ← genInitEdgeLoop T m polygon start e k (i + 1)
      pure (node :: rest)

/-- The polygon loop of `genInitNodes`: on the first polygon that is an end
polygon, build the trivial final node and stop; otherwise push nodes for
each usable edge and continue. -/
def genInitPolyLoop (T : Transc) (m : Mesh) (endPolys : List Poly)
    (start e : Pt) : List Poly → List SNode →
    Except String (Option SNode × List SNode)
  | [], acc => .ok (none, acc)
  | polygon :: rest, acc =>
    if endPolys.any (fun p => p.id = polygon.id) then do
      let fn ← mkSearchNode T none start e e none none polygon 0 e
      pure (some fn, acc)
    else do
      let nodes ← genInitEdgeLoop T m polygon start e polygon.verts.length 0
      genInitPolyLoop T m endPolys start e rest (acc ++ nodes)

/-- `SearchInstance.genInitNodes`: nothing when the start is in an
obstacle; otherwise run the polygon loop over the polygons incident to the
start.  Returns the final node when the trivial case hits, plus the list of
nodes pushed so far. -/
def genInitNodes (T : Transc) (m : Mesh) (endPolys : List Poly)
    (start e : Pt) : Except String (Option SNode × List SNode) :=
  let pl := getPointLocation T m start
  if pl.type = .IN_OBSTACLE then .ok (none, [])
  else genInitPolyLoop T m endPolys start e pl.polygons []

/-- `SearchInstance.getPath`: walk the parent chain, prepending the root
whenever it changes. -/
def getPathGo (last : Pt) (path : List Pt) : SNode → List Pt
  | .mk parent root _ _ _ _ _ _ _ _ =>
    let keep := ptEquals root last
    let last' := if keep then last else root
    let path' := if keep then path else root :: path
    match parent with
    | none => path'
    | some pr => getPathGo last' path' pr

/-- `SearchInstance.getPath` applied to the final node, starting from the
end point. -/
def getPath (e : Pt) (node : SNode) : List Pt := getPathGo e [e] node

/-- One history/push step of the successor loop of `search`: push a
successor and record its `g` unless the history already holds a strictly
better value for its quantised root key. -/
def successorStep (acc : List SNode × Hist) (s : SNode) : List SNode × Hist :=
  let key := asKey s.root
  match histGet acc.2 key with
  | none => (pqPush sLt acc.1 s, histSet acc.2 key s.g)
  | some g0 =>
    if g0 ≥ s.g then (pqPush sLt acc.1 s, histSet acc.2 key s.g)
    else acc

/-- The main `while` loop of `SearchInstance.search`, with explicit fuel
standing for an unproven termination bound.  `succFn` abstracts
`SearchNode.genSuccessors` (the projection subsystem), which no claim
constrains. -/
def searchLoop (T : Transc) (succFn : SNode → Except String (List SNode))
    (endPolys : List Poly) (e : Pt) :
    Nat → List SNode → Hist → Except String (List Pt × ℚ)
  | 0, _, _ => .error "out of fuel"
  | fuel + 1, openList, hist =>
    if pqIsEmpty openList then .ok ([], 0)
    else do
      let (node, openRest) ← pqPop sLt openList
      if endPolys.any (fun p => p.id = node.nextPolygon.id) then do
        let fn ← genFinalNode T node
        pure (getPath e fn, fn.f)
      else do
        let successors ← succFn node
        let (openNext, histNext) := successors.foldl successorStep (openRest, hist)
        searchLoop T succFn endPolys e fuel openNext histNext

/-- `SearchInstance.search`: locate the end point, bail out with an empty
path when it is in no polygon, generate initial nodes, return the trivial
path when the final node is already set, otherwise run the main loop. -/
def search (T : Transc) (succFn : SNode → Except String (List SNode))
    (fuel : Nat) (m : Mesh) (start e : Pt) : Except String (List Pt × ℚ) :=
  let endPolys := (getPointLocation T m e).polygons
  if endPolys.length = 0 then .ok ([], 0)
  else do
    let (finalNode?, pushed) ← genInitNodes T m endPolys start e
    match finalNode? with
    | some _ => pure ([start, e], distance T start e)
    | none =>
      searchLoop T succFn endPolys e fuel (pushed.foldl (pqPush sLt) []) []

/-! ## The mesh parser's adjacent-obstacle check

The vertex-reading loop of `Mesh.read` guards against two adjacent obstacle
sectors on one vertex with
`assert(vertex.polygons.findIndex((p, i) => p === -1 && next === -1), ...)`:
the raw JavaScript `findIndex` result (`-1` when absent, the index when
present) is used as the assertion's truthiness argument. -/

/-- The `findIndex` scan over the incident-polygon list: the first index
`i` with `ps[i] = -1` and `ps[(i+1) mod n] = -1`, or `-1` when none. -/
def adjObstacleFindIndex (ps : List ℤ) : ℤ :=
  match (List.range ps.length).find?
      (fun i => ps.getD i 0 = -1 && ps.getD ((i + 1) % ps.length) 0 = -1) with
  | some i => (i : ℤ)
  | none => -1

/-- The parser's assertion outcome: a JavaScript `assert(x)` passes exactly
when `x` is truthy, and of the possible `findIndex` results only `0` is
falsy.  So the check passes (the vertex is accepted) iff the scan result is
not `0`. -/
def vertexAdjObstacleCheckPasses (ps : List ℤ) : Bool :=
  adjObstacleFindIndex ps ≠ 0

/-- The property the check is meant to decide: some incident entry and its
cyclic successor are both `-1`. -/
def hasAdjacentObstaclePair (ps : List ℤ) : Bool :=
  (List.range ps.length).any
    (fun i => ps.getD i 0 = -1 && ps.getD ((i + 1) % ps.length) 0 = -1)

/-! ## Mesh well-formedness and concrete fixtures -/

/-- A polygon id reference is sound: the obstacle sentinel or in range. -/
def idOk (m : Mesh) (j : ℤ) : Bool := j = -1 || (0 ≤ j && j < (m.polygons.length : ℤ))

/-- Well-formedness of a parsed mesh: every polygon has a non-sentinel id,
and every neighbour reference and every vertex's incident-polygon reference
is the sentinel or in range (all guaranteed by the parser's asserts). -/
def wfMesh (m : Mesh) : Bool :=
  m.polygons.all (fun Q =>
    Q.id ≠ -1 && Q.neighb.all (idOk m) && Q.verts.all (fun v => v.pIndices.all (idOk m)))

/-- Fixture: the three vertices of the octahedron's upper front face. -/
def vA : Vtx := ⟨0, ⟨0, 0, ⟨1, 0, 0⟩⟩, [0, -1]⟩

def vB : Vtx := ⟨1, ⟨0, 90, ⟨0, 1, 0⟩⟩, [0, -1]⟩

def vC : Vtx := ⟨2, ⟨90, 0, ⟨0, 0, 1⟩⟩, [0, -1]⟩

/-- Fixture: that face as a border triangle. -/
def triPoly : Poly := ⟨0, [vA, vB, vC], [-1, -1, -1]⟩

/-- Fixture: a one-triangle mesh. -/
def triMesh : Mesh := ⟨[vA, vB, vC], [triPoly]⟩

/-- Fixture: a point inside the triangle (positive octant). -/
def pInside : Pt := ⟨30, 20, ⟨3/5, 1/5, 1/2⟩⟩

/-- Fixture: a second point inside the triangle. -/
def pInside2 : Pt := ⟨20, 40, ⟨1/2, 2/5, 1/3⟩⟩

/-- Fixture: a point outside the triangle (negative octant). -/
def pOutside : Pt := ⟨-30, -120, ⟨-2/5, -3/5, -1/2⟩⟩

/-- `Except.isOk`, for stating that a construction succeeded. -/
def isOkE {ε ρ : Type _} : Except ε ρ → Bool
  | .ok _ => true
  | .error _ => false

/-- The heuristic rule exactly as the specification words it (claim C4):
first the degenerate-root case, then the reflection of the goal onto the far
side, then the three visibility cases. -/
def hValueSpec (T : Transc) (root right left goal : Pt) : ℚ :=
  if ptEquals root right || ptEquals root left then distance T root goal
  else
    let goal' :=
      if getOrientation goal right left = .ANTICLOCKWISE then
        reflectPoint T goal right left
      else goal
    if getOrientation root right goal' = .CLOCKWISE then
      distance T root right + distance T right goal'
    else if getOrientation root left goal' = .ANTICLOCKWISE then
      distance T root left + distance T left goal'
    else distance T root goal'

/-- Point equality exactly as the specification words it (claim C6):
latitudes agree within `EPSILON`, and either both points are polar or the
longitudes agree within `EPSILON`. -/
def eqSpecC6 (p q : Pt) : Prop :=
  |p.lat - q.lat| < EPSILON ∧
    ((isPolar p = true ∧ isPolar q = true) ∨ |p.lon - q.lon| < EPSILON)

/-! # Theorems -/

/-! ## Elementary facts about the kernel -/

theorem EPSILON_pos : 0 < EPSILON := by norm_num [EPSILON]

theorem ptEquals_refl (p : Pt) : ptEquals p p = true := by
  have h0 : isZero 0 = true := by
    simp only [isZero, abs_zero, decide_eq_true_eq]
    exact EPSILON_pos
  simp [ptEquals, sub_self, h0]

/-- When the second and third arguments coincide, orientation is collinear
(the equality shortcut). -/
theorem getOrientation_last_eq (p q : Pt) :
    getOrientation p q q = .COLLINEAR := by
  simp [getOrientation, ptEquals_refl]

/-! ## C6: point equality -/

/-- Counterexample input: a point just inside the polar tolerance. -/
def p6 : Pt := ⟨90 - 3 / 500000000, 0, ⟨0, 0, 1⟩⟩

/-- Counterexample input: a nearby point just outside the polar tolerance,
at a very different longitude. -/
def q6 : Pt := ⟨90 - 7 / 500000000, 100, ⟨0, 0, 1⟩⟩

/-- C6 (counterexample): `Point.equals` accepts `p6 ≈ q6` although the two
points are not both polar and their longitudes differ by 100 degrees, so
the claimed "both points are polar" characterisation is false: the code
only tests whether the *first* point is polar. -/
theorem c6_counterexample :
    ptEquals p6 q6 = true ∧ ¬ eqSpecC6 p6 q6 := by
  have hdlat : |p6.lat - q6.lat| < EPSILON := by
    simp only [p6, q6, EPSILON]
    rw [abs_lt]
    constructor <;> norm_num
  have hp6 : isPolar p6 = true := by
    simp only [isPolar, isEqual, isZero, p6, decide_eq_true_eq]
    have h1 : |(90 : ℚ) - 3 / 500000000| = 90 - 3 / 500000000 :=
      abs_of_pos (by norm_num)
    rw [h1, abs_lt]
    constructor <;> norm_num [EPSILON]
  have hq6 : isPolar q6 = false := by
    simp only [isPolar, isEqual, isZero, q6, decide_eq_false_iff_not, not_lt]
    have h1 : |(90 : ℚ) - 7 / 500000000| = 90 - 7 / 500000000 :=
      abs_of_pos (by norm_num)
    rw [h1]
    have h2 : |(90 : ℚ) - 7 / 500000000 - 90| = 7 / 500000000 := by
      rw [abs_of_neg (by norm_num)]
      norm_num
    rw [h2]
    norm_num [EPSILON]
  constructor
  · simp only [ptEquals, isZero, decide_eq_true_eq]
    rw [if_pos (by simpa [p6, q6] using hdlat)]
    simp [hp6]
  · intro ⟨_, h⟩
    rcases h with ⟨_, hq⟩ | hlon
    · rw [hq6] at hq
      exact Bool.false_ne_true hq
    · have : |p6.lon - q6.lon| = 100 := by
        simp only [p6, q6]
        rw [abs_of_neg (by norm_num)]
        norm_num
      rw [this] at hlon
      norm_num [EPSILON] at hlon

/-- C6 (amended): point equality holds iff the latitudes agree within
`EPSILON` and either the *first* point is polar (its latitude within
`EPSILON` of `±90`) or the longitudes agree within `EPSILON`. -/
theorem c6_point_equality (p q : Pt) :
    ptEquals p q = true ↔
      (|p.lat - q.lat| < EPSILON ∧
        (abs (abs p.lat - 90) < EPSILON ∨ |p.lon - q.lon| < EPSILON)) := by
  simp only [ptEquals, isPolar, isEqual, isZero]
  by_cases hlat : |p.lat - q.lat| < EPSILON <;>
    simp [hlat, decide_eq_true_eq]

/-! ## C7: reflection across a great circle -/

/-- The double application of the raw reflection map: with `N = r × l`,
`reflect (reflect p) = p - 4 (p·N) (1 - ‖N‖²) N`, which recovers `p` only
when `‖N‖² = 1` (or `p·N = 0`). -/
theorem reflectVec_involutive_of_unit_normal (p r l : Vec3)
    (h : vdot (vcross r l) (vcross r l) = 1) :
    reflectVec (reflectVec p r l) r l = p := by
  obtain ⟨px, py, pz⟩ := p
  obtain ⟨rx, ry, rz⟩ := r
  obtain ⟨lx, ly, lz⟩ := l
  simp only [reflectVec, vsub, vscale, vcross, vdot, Vec3.mk.injEq] at h ⊢
  refine ⟨?_, ?_, ?_⟩
  · linear_combination (4 * (px * (ry * lz - rz * ly) + py * (rz * lx - rx * lz) +
      pz * (rx * ly - ry * lx)) * (ry * lz - rz * ly)) * h
  · linear_combination (4 * (px * (ry * lz - rz * ly) + py * (rz * lx - rx * lz) +
      pz * (rx * ly - ry * lx)) * (rz * lx - rx * lz)) * h
  · linear_combination (4 * (px * (ry * lz - rz * ly) + py * (rz * lx - rx * lz) +
      pz * (rx * ly - ry * lx)) * (rx * ly - ry * lx)) * h

/-- Counterexample input for C7: a unit vector off the reflecting plane. -/
def p7 : Vec3 := ⟨0, 3/5, 4/5⟩

/-- Counterexample input: first spanning point of the great circle. -/
def r7 : Vec3 := ⟨1, 0, 0⟩

/-- Counterexample input: second spanning point; `r7 × l7 = (0, 0, 4/5)` is
not a unit vector. -/
def l7 : Vec3 := ⟨3/5, 4/5, 0⟩

/-- C7 (counterexample): for the unit points `p7`, `r7`, `l7` the double
reflection is `(0, 3/5, 196/3125) ≠ p7`, and it is not even a positive
multiple of `p7`, so normalising the result (as the newer
`Point.reflectPoint` does before comparing) cannot recover `p7` either:
the map is not an involution because `r × l` is not normalised. -/
theorem c7_counterexample :
    reflectVec (reflectVec p7 r7 l7) r7 l7 ≠ p7 ∧
      ¬ (∃ c : ℚ, 0 < c ∧ reflectVec (reflectVec p7 r7 l7) r7 l7 = vscale p7 c) := by
  have hval : reflectVec (reflectVec p7 r7 l7) r7 l7 = ⟨0, 3/5, 196/3125⟩ := by
    norm_num [reflectVec, vsub, vscale, vcross, vdot, p7, r7, l7]
  constructor
  · rw [hval]
    intro hEq
    have hz := congrArg Vec3.z hEq
    norm_num [p7] at hz
  · rintro ⟨c, hc, hEq⟩
    rw [hval] at hEq
    simp only [p7, vscale, Vec3.mk.injEq] at hEq
    obtain ⟨-, hy, hz⟩ := hEq
    have hc1 : c = 1 := by linarith
    rw [hc1] at hz
    norm_num at hz

/-- C7 (amended): reflection across the great-circle plane through `r` and
`l` is an involution whenever the normal `N = r × l` is a unit vector
(`N · N = 1`, e.g. orthogonal spanning points); with an unnormalised
normal, as in the code, the double reflection is
`p - 4 (p·N)(1 - ‖N‖²) N` and the involution fails in general. -/
theorem c7_reflect_involution (p r l : Vec3)
    (h : vdot (vcross r l) (vcross r l) = 1) :
    reflectVec (reflectVec p r l) r l = p :=
  reflectVec_involutive_of_unit_normal p r l h

/-- Witness for `c7_reflect_involution`: orthogonal unit spanning points
`(1,0,0)` and `(0,0,1)` and a generic vector. -/
theorem c7_reflect_involution_witness :
    vdot (vcross ⟨1, 0, 0⟩ ⟨0, 0, 1⟩) (vcross ⟨1, 0, 0⟩ ⟨0, 0, 1⟩) = 1 ∧
      reflectVec (reflectVec ⟨2, 3, 5⟩ ⟨1, 0, 0⟩ ⟨0, 0, 1⟩) ⟨1, 0, 0⟩ ⟨0, 0, 1⟩ =
        (⟨2, 3, 5⟩ : Vec3) := by
  have h : vdot (vcross ⟨1, 0, 0⟩ ⟨0, 0, 1⟩) (vcross ⟨1, 0, 0⟩ ⟨0, 0, 1⟩) = (1 : ℚ) := by
    norm_num [vcross, vdot]
  exact ⟨h, c7_reflect_involution ⟨2, 3, 5⟩ ⟨1, 0, 0⟩ ⟨0, 0, 1⟩ h⟩

/-! ## C8: the adjacent-obstacle parser check -/

/-- C8 (code bug): the vertex `[0, -1, -1]` has two adjacent obstacle
sectors, yet the parser's `assert(findIndex(...))` passes because the found
index `1` is truthy; the check only fires when the pair starts at index `0`
(result `0`, the lone falsy value), as the second and third conjuncts
illustrate.  The newer `src/src` parser performs no such check at all. -/
theorem c8_adjacent_obstacle_check_broken :
    hasAdjacentObstaclePair [0, -1, -1] = true ∧
      vertexAdjObstacleCheckPasses [0, -1, -1] = true ∧
      vertexAdjObstacleCheckPasses [-1, -1, 0] = false ∧
      vertexAdjObstacleCheckPasses [0, -1, 2] = true := by
  refine ⟨?_, ?_, ?_, ?_⟩ <;>
    simp [hasAdjacentObstaclePair, vertexAdjObstacleCheckPasses, adjObstacleFindIndex,
      List.range_succ, List.find?]

/-! ## C4: the heuristic of the search-node constructor -/

theorem computeH_eq_hValueSpec (T : Transc) (root right left goal : Pt) :
    computeH T root right left goal = hValueSpec T root right left goal := by
  unfold computeH hValueSpec
  rw [Bool.or_comm]

/-- C4: every node accepted by the `SearchNode` constructor carries exactly
the `h`-value the specification describes: the degenerate-root case, then
the goal reflected across the interval when it lies on the root side, then
the three visibility cases through the interval. -/
theorem c4_heuristic (T : Transc) (parent : Option SNode) (root right left : Pt)
    (rv lv : Option Vtx) (poly : Poly) (g : ℚ) (goal : Pt) (node : SNode)
    (hok : mkSearchNode T parent root right left rv lv poly g goal = .ok node) :
    node.h = hValueSpec T root right left goal := by
  unfold mkSearchNode at hok
  split at hok
  · exact absurd hok (by simp)
  · split at hok
    · exact absurd hok (by simp)
    · cases hok
      rw [← computeH_eq_hValueSpec]
      rfl

/-- Concrete node accepted by the constructor, for the C4 witness. -/
def wNode4 : SNode :=
  .mk none pInside vA.pt vB.pt (some vA) (some vB) triPoly 0
    (computeH trivT pInside vA.pt vB.pt pInside2) pInside2

theorem c4_heuristic_witness :
    mkSearchNode trivT none pInside vA.pt vB.pt (some vA) (some vB) triPoly 0 pInside2 =
        .ok wNode4 ∧
      wNode4.h = hValueSpec trivT pInside vA.pt vB.pt pInside2 := by
  have hok : mkSearchNode trivT none pInside vA.pt vB.pt (some vA) (some vB) triPoly 0
      pInside2 = .ok wNode4 := by
    norm_num [mkSearchNode, getOrientation, ptEquals, isZero, isPolar, isEqual, EPSILON,
      vcross, vdot, pInside, vA, vB, triPoly, wNode4]
    simp
  exact ⟨hok, c4_heuristic trivT none pInside vA.pt vB.pt (some vA) (some vB) triPoly 0
    pInside2 wNode4 hok⟩

/-! ## C5: the search-node invariants -/

/-- C5: a `SearchNode` construction succeeds exactly when the root is not
clockwise of the directed interval and the next polygon is not the obstacle
sentinel, and every constructed node satisfies both invariants (a violating
construction fails fast with an error). -/
theorem c5_invariants (T : Transc) (parent : Option SNode) (root right left : Pt)
    (rv lv : Option Vtx) (poly : Poly) (g : ℚ) (goal : Pt) :
    (isOkE (mkSearchNode T parent root right left rv lv poly g goal) = true ↔
      (getOrientation root right left ≠ .CLOCKWISE ∧ poly.id ≠ -1)) ∧
    (∀ node, mkSearchNode T parent root right left rv lv poly g goal = .ok node →
      getOrientation node.root node.right node.left ≠ .CLOCKWISE ∧
        node.nextPolygon.id ≠ -1) := by
  constructor
  · unfold mkSearchNode
    by_cases h1 : getOrientation root right left = .CLOCKWISE
    · simp [h1, isOkE]
    · by_cases h2 : poly.id = -1 <;> simp [h1, h2, isOkE]
  · intro node hok
    unfold mkSearchNode at hok
    split at hok
    · exact absurd hok (by simp)
    · split at hok
      · exact absurd hok (by simp)
      · cases hok
        rename_i h1 h2
        exact ⟨h1, h2⟩

/-- Concrete node for the C5 witness (root `pInside2`). -/
def wNode5 : SNode :=
  .mk none pInside2 vA.pt vB.pt (some vA) (some vB) triPoly 0
    (computeH trivT pInside2 vA.pt vB.pt pInside) pInside

theorem c5_invariants_witness :
    getOrientation wNode5.root wNode5.right wNode5.left ≠ .CLOCKWISE ∧
      wNode5.nextPolygon.id ≠ -1 := by
  have hok : mkSearchNode trivT none pInside2 vA.pt vB.pt (some vA) (some vB) triPoly 0
      pInside = .ok wNode5 := by
    norm_num [mkSearchNode, getOrientation, ptEquals, isZero, isPolar, isEqual, EPSILON,
      vcross, vdot, pInside2, vA, vB, triPoly, wNode5]
    simp
  exact (c5_invariants trivT none pInside2 vA.pt vB.pt (some vA) (some vB) triPoly 0
    pInside).2 wNode5 hok

/-! ## C3: terminal-node construction -/

/-- C3: when the popped node's next polygon contains the goal, the terminal
node is built after the visibility test through the interval: a turn at
`right` (root `right`, `g` grown by `distance(root, right)`) when
`orientation(root, right, G)` is not anticlockwise; otherwise a turn at
`left` when `orientation(root, left, G)` is not clockwise; otherwise no
extra turn (root and `g` unchanged). -/
theorem c3_terminal_node (T : Transc) (node : SNode)
    (hIn : (containsPoint T node.nextPolygon node.goal).type ≠ .OUTSIDE)
    (hPoly : node.nextPolygon.id ≠ -1) :
    ∃ fn, genFinalNode T node = .ok fn ∧
      (if getOrientation node.root node.right node.goal ≠ .ANTICLOCKWISE then
        fn.root = node.right ∧ fn.g = node.g + distance T node.root node.right
      else if getOrientation node.root node.left node.goal ≠ .CLOCKWISE then
        fn.root = node.left ∧ fn.g = node.g + distance T node.root node.left
      else fn.root = node.root ∧ fn.g = node.g) := by
  unfold genFinalNode
  rw [if_neg (by simpa using hIn)]
  have hmk : ∀ (pr : Option SNode) (root' : Pt) (g' : ℚ),
      mkSearchNode T pr root' node.goal node.goal none none node.nextPolygon g'
          node.goal =
        .ok (.mk pr root' node.goal node.goal none none node.nextPolygon g'
          (computeH T root' node.goal node.goal node.goal) node.goal) := by
    intro pr root' g'
    unfold mkSearchNode
    rw [if_neg (by rw [getOrientation_last_eq]; simp), if_neg hPoly]
  by_cases hr : getOrientation node.root node.right node.goal = .ANTICLOCKWISE
  · by_cases hl : getOrientation node.root node.left node.goal = .CLOCKWISE
    · refine ⟨.mk (some node) node.root node.goal node.goal none none node.nextPolygon
        node.g (computeH T node.root node.goal node.goal node.goal) node.goal, ?_, ?_⟩
      · simp only [hr, hl]
        rw [if_neg (by simp), if_neg (by simp), if_pos (by simp)]
        exact hmk (some node) node.root node.g
      · rw [if_neg (by simp [hr]), if_neg (by simp [hl])]
        exact ⟨rfl, rfl⟩
    · refine ⟨.mk (some node) node.left node.goal node.goal none none node.nextPolygon
        (node.g + distance T node.root node.left)
        (computeH T node.left node.goal node.goal node.goal) node.goal, ?_, ?_⟩
      · simp only [hr, hl]
        rw [if_neg (by simp), if_pos (by simp [hl])]
        exact hmk (some node) node.left (node.g + distance T node.root node.left)
      · rw [if_neg (by simp [hr]), if_pos (by simp [hl])]
        exact ⟨rfl, rfl⟩
  · refine ⟨.mk (some node) node.right node.goal node.goal none none node.nextPolygon
      (node.g + distance T node.root node.right)
      (computeH T node.right node.goal node.goal node.goal) node.goal, ?_, ?_⟩
    · simp only [hr]
      rw [if_pos (by simp [hr])]
      exact hmk (some node) node.right (node.g + distance T node.root node.right)
    · rw [if_pos (by simp [hr])]
      exact ⟨rfl, rfl⟩

/-- Concrete node for the C3 witness: the goal `pInside2` lies inside the
node's next polygon. -/
def wNode3 : SNode :=
  .mk none pInside vA.pt vB.pt (some vA) (some vB) triPoly 0
    (computeH trivT pInside vA.pt vB.pt pInside2) pInside2

theorem c3_terminal_node_witness :
    isOkE (genFinalNode trivT wNode3) = true := by
  have hIn : (containsPoint trivT wNode3.nextPolygon wNode3.goal).type ≠ .OUTSIDE := by
    have : (containsPoint trivT triPoly pInside2).type = .INSIDE := by
      norm_num [containsPoint, containsPointGo, triPoly, pInside2, vA, vB, vC,
        getOrientation, ptEquals, isZero, isPolar, isEqual, EPSILON, vcross, vdot,
        isBounded, defaultVtx, negatePt, trivT, vneg]
      simp
    show (containsPoint trivT triPoly pInside2).type ≠ .OUTSIDE
    rw [this]
    simp
  obtain ⟨fn, hfn, -⟩ := c3_terminal_node trivT wNode3 hIn
    (by simp [wNode3, SNode.nextPolygon, triPoly])
  rw [hfn]
  rfl

/-! ## C10: containment round-trip on polygon vertices -/

/-- The loop of `containsPoint`, started anywhere before the ring position
`k` that holds the query point, reaches `k` and reports `ON_VERTEX`.
`hflag` records that the pending `onEdge` flag can only be set in the
iteration just before `k` (where the edge ends in the query point). -/
theorem containsPointGo_on_vertex (T : Transc) (P : Poly) (k : Nat)
    (hk : k < P.verts.length)
    (hdist : ∀ i j, i < P.verts.length → j < P.verts.length → i ≠ j →
      ptEquals (P.verts.getD i defaultVtx).pt (P.verts.getD j defaultVtx).pt = false)
    (hccw : ∀ i j, i < P.verts.length → j < P.verts.length →
      j ≠ i → j ≠ (i + 1) % P.verts.length →
      getOrientation (P.verts.getD i defaultVtx).pt
        (P.verts.getD ((i + 1) % P.verts.length) defaultVtx).pt
        (P.verts.getD j defaultVtx).pt = .ANTICLOCKWISE) :
    ∀ c i b, c + i = P.verts.length → i ≤ k → (b = true → i = k) →
      containsPointGo T P ((P.verts.getD k defaultVtx).pt) c i b =
        ⟨.ON_VERTEX, -1, [P.verts.getD k defaultVtx]⟩ := by
  set n := P.verts.length with hn
  intro c
  induction c with
  | zero =>
    intro i b hci hik _
    omega
  | succ c ih =>
    intro i b hci hik hb
    have hin : i < n := by omega
    have himod : i % n = i := Nat.mod_eq_of_lt hin
    by_cases hik' : i = k
    · subst hik'
      simp only [containsPointGo, himod, ptEquals_refl]
      simp
    · have hiltk : i < k := by omega
      have hne : ptEquals (P.verts.getD k defaultVtx).pt
          (P.verts.getD i defaultVtx).pt = false :=
        hdist k i hk hin (by omega)
      have hbf : b = false := by
        cases b
        · rfl
        · exact absurd (hb rfl) (by omega)
      subst hbf
      simp only [containsPointGo, himod, hne]
      rw [if_neg (by simp), if_neg (by simp)]
      by_cases hklast : i + 1 = k
      · have hmod1 : (i + 1) % n = k := by
          rw [hklast]; exact Nat.mod_eq_of_lt hk
        have hor : getOrientation (P.verts.getD i defaultVtx).pt
            (P.verts.getD ((i + 1) % n) defaultVtx).pt
            (P.verts.getD k defaultVtx).pt = .COLLINEAR := by
          rw [hmod1]
          exact getOrientation_last_eq _ _
        have hbnd : isBounded T (P.verts.getD k defaultVtx).pt
            (P.verts.getD i defaultVtx).pt
            (P.verts.getD ((i + 1) % n) defaultVtx).pt = true := by
          rw [hmod1]
          unfold isBounded
          rw [if_pos (by rw [ptEquals_refl]; simp)]
        rw [if_pos ⟨hor, hbnd⟩]
        exact ih (i + 1) true (by omega) (by omega) (fun _ => hklast)
      · have hmod1 : (i + 1) % n = i + 1 := Nat.mod_eq_of_lt (by omega)
        have hor : getOrientation (P.verts.getD i defaultVtx).pt
            (P.verts.getD ((i + 1) % n) defaultVtx).pt
            (P.verts.getD k defaultVtx).pt = .ANTICLOCKWISE :=
          hccw i k hin hk (by omega) (by rw [hmod1]; omega)
        rw [if_neg (by rw [hor]; simp), if_neg (by rw [hor]; simp)]
        exact ih (i + 1) false (by omega) (by omega) (by simp)

/-- C10: for every polygon of a well-formed mesh — ring vertices pairwise
distinct and every non-incident vertex strictly anticlockwise of every
directed edge, the spherical-convexity reading of "vertices listed so the
interior lies to the left" — `containsPoint` on a ring vertex returns
`ON_VERTEX` with exactly that vertex (and the obstacle sentinel as the
adjacent polygon). -/
theorem c10_contains_vertex (T : Transc) (P : Poly) (k : Nat)
    (hk : k < P.verts.length)
    (hdist : ∀ i j, i < P.verts.length → j < P.verts.length → i ≠ j →
      ptEquals (P.verts.getD i defaultVtx).pt (P.verts.getD j defaultVtx).pt = false)
    (hccw : ∀ i j, i < P.verts.length → j < P.verts.length →
      j ≠ i → j ≠ (i + 1) % P.verts.length →
      getOrientation (P.verts.getD i defaultVtx).pt
        (P.verts.getD ((i + 1) % P.verts.length) defaultVtx).pt
        (P.verts.getD j defaultVtx).pt = .ANTICLOCKWISE) :
    containsPoint T P ((P.verts.getD k defaultVtx).pt) =
      ⟨.ON_VERTEX, -1, [P.verts.getD k defaultVtx]⟩ := by
  unfold containsPoint
  exact containsPointGo_on_vertex T P k hk hdist hccw P.verts.length 0 false
    (by omega) (by omega) (by simp)

theorem c10_contains_vertex_witness :
    containsPoint trivT triPoly ((triPoly.verts.getD 2 defaultVtx).pt) =
      ⟨.ON_VERTEX, -1, [triPoly.verts.getD 2 defaultVtx]⟩ := by
  have horients : ∀ i j, i < triPoly.verts.length → j < triPoly.verts.length →
      j ≠ i → j ≠ (i + 1) % triPoly.verts.length →
      getOrientation (triPoly.verts.getD i defaultVtx).pt
        (triPoly.verts.getD ((i + 1) % triPoly.verts.length) defaultVtx).pt
        (triPoly.verts.getD j defaultVtx).pt = .ANTICLOCKWISE := by
    intro i j hi hj hji hji1
    simp only [triPoly, List.length_cons, List.length_nil] at hi hj
    interval_cases i <;> interval_cases j <;>
      first
        | omega
        | (norm_num [triPoly, vA, vB, vC, getOrientation, ptEquals, isZero, isPolar,
            isEqual, EPSILON, vcross, vdot, defaultVtx] at hji hji1 ⊢)
  have hdists : ∀ i j, i < triPoly.verts.length → j < triPoly.verts.length → i ≠ j →
      ptEquals (triPoly.verts.getD i defaultVtx).pt
        (triPoly.verts.getD j defaultVtx).pt = false := by
    intro i j hi hj hij
    simp only [triPoly, List.length_cons, List.length_nil] at hi hj
    interval_cases i <;> interval_cases j <;>
      first
        | omega
        | norm_num [triPoly, vA, vB, vC, ptEquals, isZero, isPolar, isEqual, EPSILON,
            defaultVtx]
  exact c10_contains_vertex trivT triPoly 2 (by norm_num [triPoly]) hdists horients

/-! ## C2: the no-path cases return an empty path, not an error -/

/-- C2: whenever no path exists the search returns the empty path with
length `0` rather than failing: (a) the end point lies in no polygon,
(b) the start point is in an obstacle (no initial node is generated and the
main loop starts on an empty open list), and (c) generally, whenever the
main loop reaches an empty open list with no final node set. -/
theorem c2_no_path (T : Transc) (succ : SNode → Except String (List SNode))
    (fuel : Nat) (m : Mesh) (s e : Pt) (hfuel : 1 ≤ fuel) :
    ((getPointLocation T m e).polygons = [] → search T succ fuel m s e = .ok ([], 0)) ∧
    ((getPointLocation T m s).type = .IN_OBSTACLE →
      search T succ fuel m s e = .ok ([], 0)) ∧
    (∀ endPolys hist, searchLoop T succ endPolys e fuel [] hist = .ok ([], 0)) := by
  obtain ⟨f, rfl⟩ : ∃ f, fuel = f + 1 := ⟨fuel - 1, by omega⟩
  have hloop : ∀ endPolys hist, searchLoop T succ endPolys e (f + 1) [] hist =
      .ok ([], 0) := by
    intro endPolys hist
    simp [searchLoop, pqIsEmpty]
  refine ⟨?_, ?_, hloop⟩
  · intro hend
    unfold search
    rw [if_pos (by rw [hend]; rfl)]
  · intro hobs
    unfold search
    by_cases hlen : (getPointLocation T m e).polygons.length = 0
    · rw [if_pos hlen]
    · rw [if_neg hlen]
      have hinit : genInitNodes T m (getPointLocation T m e).polygons s e =
          .ok (none, []) := by
        unfold genInitNodes
        rw [if_pos hobs]
      rw [hinit]
      show searchLoop T succ (getPointLocation T m e).polygons e (f + 1)
          (List.foldl (pqPush sLt) [] []) [] = Except.ok ([], 0)
      exact hloop _ _

theorem c2_no_path_witness :
    search trivT (fun _ => .ok []) 1 triMesh pInside pOutside = .ok ([], 0) ∧
      search trivT (fun _ => .ok []) 1 triMesh pOutside pInside = .ok ([], 0) ∧
      searchLoop trivT (fun _ => .ok []) [triPoly] pInside 1 [] [] = .ok ([], 0) := by
  have hout : getPointLocation trivT triMesh pOutside =
      ⟨.IN_OBSTACLE, [], []⟩ := by
    norm_num [getPointLocation, getPointLocationGo, containsPoint, containsPointGo,
      triMesh, triPoly, pOutside, vA, vB, vC, getOrientation, ptEquals, isZero, isPolar,
      isEqual, EPSILON, vcross, vdot, isBounded, defaultVtx, negatePt, trivT, vneg]
  refine ⟨?_, ?_, ?_⟩
  · exact (c2_no_path trivT (fun _ => .ok []) 1 triMesh pInside pOutside
      (by omega)).1 (by rw [hout])
  · exact (c2_no_path trivT (fun _ => .ok []) 1 triMesh pOutside pInside
      (by omega)).2.1 (by rw [hout])
  · exact (c2_no_path trivT (fun _ => .ok []) 1 triMesh pInside pInside
      (by omega)).2.2 [triPoly] []

/-! ## C1: same-polygon searches -/

/-- In-range `getD` is a member. -/
theorem getD_mem_of_lt {β : Type _} (l : List β) (i : Nat) (d : β)
    (h : i < l.length) : l.getD i d ∈ l := by
  rw [List.getD_eq_getElem l d h]
  exact List.getElem_mem h

/-- Out-of-range `getD` is the default. -/
theorem getD_default_of_le {β : Type _} (l : List β) (i : Nat) (d : β)
    (h : l.length ≤ i) : l.getD i d = d := by
  rw [List.getD_eq_getElem?_getD, List.getElem?_eq_none h]
  rfl

/-- An `IN_OBSTACLE` location always carries an empty polygon list. -/
theorem getPointLocationGo_obstacle_polys (T : Transc) (m : Mesh) (p : Pt) :
    ∀ L, (getPointLocationGo T m p L).type = .IN_OBSTACLE →
      (getPointLocationGo T m p L).polygons = [] := by
  intro L
  induction L with
  | nil => intro _; rfl
  | cons polygon rest ih =>
    intro h
    unfold getPointLocationGo at h ⊢
    rcases hty : (containsPoint T polygon p).type with _ | _ | _ | _ <;> rw [hty] at h
    · exact ih h
    · simp at h
    · by_cases hadj : (containsPoint T polygon p).adjPolyId = -1 <;> simp [hadj] at h
    · simp at h
      split at h
      · split at h <;> simp at h
      · simp at h

/-- `getPointLocation` form of the previous lemma. -/
theorem getPointLocation_obstacle_polys (T : Transc) (m : Mesh) (p : Pt) :
    (getPointLocation T m p).type = .IN_OBSTACLE →
      (getPointLocation T m p).polygons = [] :=
  getPointLocationGo_obstacle_polys T m p m.polygons

/-- The adjacent polygon id reported by the containment walk is either the
sentinel or one of the polygon's neighbour entries. -/
theorem containsPointGo_adjPolyId_mem (T : Transc) (poly : Poly) (p : Pt) :
    ∀ k i b, (containsPointGo T poly p k i b).adjPolyId = -1 ∨
      (containsPointGo T poly p k i b).adjPolyId ∈ poly.neighb := by
  intro k
  induction k with
  | zero =>
    intro i b
    unfold containsPointGo
    split
    · by_cases hlen : 0 < poly.neighb.length
      · right
        exact getD_mem_of_lt _ _ _ hlen
      · left
        exact getD_default_of_le _ _ _ (by omega)
    · left; rfl
  | succ k ih =>
    intro i b
    unfold containsPointGo
    split
    · left; rfl
    · split
      · by_cases hlen : i < poly.neighb.length
        · right
          exact getD_mem_of_lt _ _ _ hlen
        · left
          exact getD_default_of_le _ _ _ (by omega)
      · split
        · exact ih (i + 1) true
        · split
          · left; rfl
          · exact ih (i + 1) b

/-- An `ON_VERTEX` containment verdict carries exactly one vertex, drawn
from the polygon's ring. -/
theorem containsPointGo_on_vertex_mem (T : Transc) (poly : Poly) (p : Pt) :
    ∀ k i b, k ≤ poly.verts.length →
      (containsPointGo T poly p k i b).type = .ON_VERTEX →
      ∃ v ∈ poly.verts, (containsPointGo T poly p k i b).verts = [v] := by
  intro k
  induction k with
  | zero =>
    intro i b _ h
    unfold containsPointGo at h
    split at h <;> simp at h
  | succ k ih =>
    intro i b hk h
    have hn : 0 < poly.verts.length := by omega
    unfold containsPointGo at h ⊢
    split at h
    · rename_i h1
      rw [if_pos h1]
      exact ⟨_, getD_mem_of_lt _ _ _ (Nat.mod_lt _ hn), rfl⟩
    · rename_i h1
      split at h
      · simp at h
      · rename_i h2
        split at h
        · rename_i h3
          rw [if_neg h1, if_neg h2, if_pos h3]
          exact ih (i + 1) true (by omega) h
        · rename_i h3
          split at h
          · simp at h
          · rename_i h4
            rw [if_neg h1, if_neg h2, if_neg h3, if_neg h4]
            exact ih (i + 1) b (by omega) h

/-- Well-formedness unpacked for one mesh polygon. -/
theorem wfMesh_spec (m : Mesh) (hwf : wfMesh m = true) :
    ∀ P ∈ m.polygons, P.id ≠ -1 ∧ (∀ j ∈ P.neighb, idOk m j = true) ∧
      (∀ v ∈ P.verts, ∀ i ∈ v.pIndices, idOk m i = true) := by
  intro P hP
  have := (List.all_eq_true.mp hwf) P hP
  simp only [Bool.and_eq_true, List.all_eq_true, decide_eq_true_eq] at this
  obtain ⟨⟨hid, hnb⟩, hv⟩ := this
  exact ⟨by simpa using hid, fun j hj => hnb j hj, fun v hv' i hi => hv v hv' i hi⟩

/-- Resolving a sound non-sentinel id yields a mesh polygon. -/
theorem polyOfId_mem (m : Mesh) (j : ℤ) (hok : idOk m j = true) (hne : j ≠ -1) :
    polyOfId m j ∈ m.polygons := by
  unfold idOk at hok
  simp only [Bool.or_eq_true, Bool.and_eq_true, decide_eq_true_eq] at hok
  rcases hok with h | ⟨h1, h2⟩
  · exact absurd h hne
  · unfold polyOfId
    rw [dif_pos ⟨h1, by omega⟩]
    exact List.get_mem _ _ _

/-- Every polygon reported by point location belongs to the mesh. -/
theorem getPointLocation_polygons_mem (T : Transc) (m : Mesh) (p : Pt)
    (hwf : wfMesh m = true) :
    ∀ P ∈ (getPointLocation T m p).polygons, P ∈ m.polygons := by
  unfold getPointLocation
  have hsub : ∀ L, (∀ Q ∈ L, Q ∈ m.polygons) →
      ∀ P ∈ (getPointLocationGo T m p L).polygons, P ∈ m.polygons := by
    intro L
    induction L with
    | nil =>
      intro _ P hP
      simp [getPointLocationGo] at hP
    | cons polygon rest ih =>
      intro hL P hP
      have hpoly : polygon ∈ m.polygons := hL polygon (by simp)
      unfold getPointLocationGo at hP
      split at hP
      · exact ih (fun Q hQ => hL Q (by simp [hQ])) P hP
      · simp only [List.mem_singleton] at hP
        exact hP ▸ hpoly
      · split at hP
        · simp only [List.mem_singleton] at hP
          exact hP ▸ hpoly
        · rename_i hadj
          simp only [List.mem_cons, List.mem_singleton, List.not_mem_nil, or_false] at hP
          rcases hP with rfl | rfl
          · exact hpoly
          · rcases containsPointGo_adjPolyId_mem T polygon p
                polygon.verts.length 0 false with h | h
            · exact absurd h hadj
            · exact polyOfId_mem m _ ((wfMesh_spec m hwf polygon hpoly).2.1 _ h) hadj
      · rename_i hty
        obtain ⟨v0, hv0, hverts⟩ := containsPointGo_on_vertex_mem T polygon p
          polygon.verts.length 0 false (le_refl _) hty
        simp only [List.mem_map, List.mem_filter, decide_eq_true_eq] at hP
        rw [show (containsPoint T polygon p).verts = [v0] from hverts] at hP
        obtain ⟨j, ⟨hj, hjne⟩, rfl⟩ := hP
        have hj0 : j ∈ v0.pIndices := by simpa using hj
        exact polyOfId_mem m j
          ((wfMesh_spec m hwf polygon hpoly).2.2 v0 hv0 j hj0) (by simpa using hjne)
  exact hsub m.polygons (fun Q hQ => hQ)

/-- The edge loop of initial-node generation cannot fail when the start is
never clockwise of an edge of the (well-formed) polygon. -/
theorem genInitEdgeLoop_ok (T : Transc) (m : Mesh) (polygon : Poly) (s e : Pt)
    (hwf : wfMesh m = true) (hmem : polygon ∈ m.polygons)
    (hedge : ∀ i < polygon.verts.length,
      getOrientation s (polygon.verts.getD i defaultVtx).pt
        (polygon.verts.getD ((i + 1) % polygon.verts.length) defaultVtx).pt ≠
        .CLOCKWISE) :
    ∀ k i, k + i = polygon.verts.length →
      ∃ nodes, genInitEdgeLoop T m polygon s e k i = .ok nodes := by
  intro k
  induction k with
  | zero => exact fun i _ => ⟨[], rfl⟩
  | succ k ih =>
    intro i hki
    have hi : i < polygon.verts.length := by omega
    unfold genInitEdgeLoop
    split
    · exact ih (i + 1) (by omega)
    · split
      · exact ih (i + 1) (by omega)
      · rename_i hnid
        have hmk : ∃ node, mkSearchNode T none s (polygon.verts.getD i defaultVtx).pt
            (polygon.verts.getD ((i + 1) % polygon.verts.length) defaultVtx).pt
            (some (polygon.verts.getD i defaultVtx))
            (some (polygon.verts.getD ((i + 1) % polygon.verts.length) defaultVtx))
            (polyOfId m (polygon.neighb.getD ((i + 1) % polygon.verts.length) (-1))) 0
            e = .ok node := by
          set nid := polygon.neighb.getD ((i + 1) % polygon.verts.length) (-1) with hnidd
          have hnmem : nid ∈ polygon.neighb := by
            by_cases hlen : (i + 1) % polygon.verts.length < polygon.neighb.length
            · exact hnidd ▸ getD_mem_of_lt _ _ _ hlen
            · exfalso
              apply hnid
              rw [hnidd, List.getD_eq_getElem?_getD,
                List.getElem?_eq_none (by omega)]
              rfl
          have hidok := (wfMesh_spec m hwf polygon hmem).2.1 nid hnmem
          have hpm := polyOfId_mem m nid hidok hnid
          have hpid := (wfMesh_spec m hwf _ hpm).1
          unfold mkSearchNode
          rw [if_neg (hedge i hi), if_neg hpid]
          exact ⟨_, rfl⟩
        obtain ⟨node, hnode⟩ := hmk
        rw [hnode]
        obtain ⟨nodes, hnodes⟩ := ih (i + 1) (by omega)
        rw [hnodes]
        exact ⟨node :: nodes, rfl⟩

/-- The polygon loop of initial-node generation reaches an end polygon and
sets the trivial final node. -/
theorem genInitPolyLoop_final (T : Transc) (m : Mesh) (endPolys : List Poly)
    (s e : Pt) (hwf : wfMesh m = true) :
    ∀ L acc, (∀ Q ∈ L, Q ∈ m.polygons) →
      (∃ P ∈ L, endPolys.any (fun q => q.id = P.id) = true) →
      (∀ Q ∈ L, ∀ i < Q.verts.length,
        getOrientation s (Q.verts.getD i defaultVtx).pt
          (Q.verts.getD ((i + 1) % Q.verts.length) defaultVtx).pt ≠ .CLOCKWISE) →
      ∃ fn acc', genInitPolyLoop T m endPolys s e L acc = .ok (some fn, acc') := by
  intro L
  induction L with
  | nil =>
    intro acc _ hP _
    obtain ⟨P, hP, -⟩ := hP
    exact absurd hP (List.not_mem_nil P)
  | cons polygon rest ih =>
    intro acc hmem hP hedge
    unfold genInitPolyLoop
    by_cases hhit : endPolys.any (fun q => q.id = polygon.id) = true
    · rw [if_pos hhit]
      have hpid : polygon.id ≠ -1 :=
        (wfMesh_spec m hwf polygon (hmem polygon (by simp))).1
      have hmk : mkSearchNode T none s e e none none polygon 0 e =
          .ok (.mk none s e e none none polygon 0 (computeH T s e e e) e) := by
        unfold mkSearchNode
        rw [if_neg (by rw [getOrientation_last_eq]; simp), if_neg hpid]
      rw [hmk]
      exact ⟨_, acc, rfl⟩
    · rw [if_neg hhit]
      obtain ⟨nodes, hnodes⟩ := genInitEdgeLoop_ok T m polygon s e hwf
        (hmem polygon (by simp)) (hedge polygon (by simp)) polygon.verts.length 0
        (by omega)
      rw [hnodes]
      refine ih (acc ++ nodes) (fun Q hQ => hmem Q (by simp [hQ])) ?_
        (fun Q hQ => hedge Q (by simp [hQ]))
      obtain ⟨P, hPmem, hPany⟩ := hP
      rcases List.mem_cons.mp hPmem with rfl | hPrest
      · exact absurd hPany hhit
      · exact ⟨P, hPrest, hPany⟩

/-- C1: when the start and end points share a traversable polygon (the
start located in a well-formed mesh, never strictly clockwise of an edge of
a polygon it lies in), the search returns exactly `[start, end]` with
length `distance(start, end)`. -/
theorem c1_same_polygon (T : Transc) (succ : SNode → Except String (List SNode))
    (fuel : Nat) (m : Mesh) (s e : Pt) (hwf : wfMesh m = true)
    (hshared : ∃ P ∈ (getPointLocation T m s).polygons,
      ((getPointLocation T m e).polygons.any (fun q => q.id = P.id)) = true)
    (hedge : ∀ Q ∈ (getPointLocation T m s).polygons, ∀ i < Q.verts.length,
      getOrientation s (Q.verts.getD i defaultVtx).pt
        (Q.verts.getD ((i + 1) % Q.verts.length) defaultVtx).pt ≠ .CLOCKWISE) :
    search T succ fuel m s e = .ok ([s, e], distance T s e) := by
  have hend : (getPointLocation T m e).polygons.length ≠ 0 := by
    obtain ⟨P, -, hany⟩ := hshared
    obtain ⟨q, hq, -⟩ := List.any_eq_true.mp hany
    intro hlen
    rw [List.length_eq_zero.mp hlen] at hq
    exact List.not_mem_nil q hq
  have hsub := getPointLocation_polygons_mem T m s hwf
  have hobs : (getPointLocation T m s).type ≠ .IN_OBSTACLE := by
    intro hty
    obtain ⟨P, hP, -⟩ := hshared
    rw [getPointLocation_obstacle_polys T m s hty] at hP
    exact List.not_mem_nil P hP
  obtain ⟨fn, acc', hfinal⟩ := genInitPolyLoop_final T m
    (getPointLocation T m e).polygons s e hwf (getPointLocation T m s).polygons []
    hsub hshared hedge
  unfold search
  rw [if_neg hend]
  have hinit : genInitNodes T m (getPointLocation T m e).polygons s e =
      .ok (some fn, acc') := by
    unfold genInitNodes
    rw [if_neg hobs]
    exact hfinal
  rw [hinit]
  rfl

theorem c1_same_polygon_witness :
    search trivT (fun _ => .ok []) 0 triMesh pInside pInside2 =
      .ok ([pInside, pInside2], distance trivT pInside pInside2) := by
  have hin : getPointLocation trivT triMesh pInside = ⟨.IN_POLYGON, [triPoly], []⟩ := by
    norm_num [getPointLocation, getPointLocationGo, containsPoint, containsPointGo,
      triMesh, triPoly, pInside, vA, vB, vC, getOrientation, ptEquals, isZero, isPolar,
      isEqual, EPSILON, vcross, vdot, isBounded, defaultVtx, negatePt, trivT, vneg]
    simp
  have hin2 : getPointLocation trivT triMesh pInside2 =
      ⟨.IN_POLYGON, [triPoly], []⟩ := by
    norm_num [getPointLocation, getPointLocationGo, containsPoint, containsPointGo,
      triMesh, triPoly, pInside2, vA, vB, vC, getOrientation, ptEquals, isZero, isPolar,
      isEqual, EPSILON, vcross, vdot, isBounded, defaultVtx, negatePt, trivT, vneg]
    simp
  refine c1_same_polygon trivT (fun _ => .ok []) 0 triMesh pInside pInside2 (by decide)
    ?_ ?_
  · rw [hin, hin2]
    exact ⟨triPoly, by simp, by simp⟩
  · rw [hin]
    intro Q hQ i hi
    have hQt : Q = triPoly := by simpa using hQ
    subst hQt
    simp only [triPoly, List.length_cons, List.length_nil] at hi
    interval_cases i <;>
      norm_num [triPoly, vA, vB, vC, pInside, getOrientation, ptEquals, isZero, isPolar,
        isEqual, EPSILON, vcross, vdot, defaultVtx] <;>
      simp

/-! ## C9: the priority queue -/

section HeapVerification

variable {α : Type _} (ltb : α → α → Bool)

theorem pqSwap_len (l : List α) (i j : Nat) : (pqSwap l i j).length = l.length := by
  unfold pqSwap
  cases l[i]? <;> cases l[j]? <;> simp

theorem pqGreater_bounds {l : List α} {i j : Nat}
    (h : pqGreater ltb l i j = true) : i < l.length ∧ j < l.length := by
  unfold pqGreater at h
  by_cases hi : i < l.length
  · by_cases hj : j < l.length
    · exact ⟨hi, hj⟩
    · rw [List.getElem?_eq_none (l := l) (n := j) (by omega)] at h
      cases l[i]? <;> simp at h
  · rw [List.getElem?_eq_none (l := l) (n := i) (by omega)] at h
    simp at h

theorem pqGreater_def {l : List α} {i j : Nat} (hi : i < l.length)
    (hj : j < l.length) : pqGreater ltb l i j = ltb l[i] l[j] := by
  unfold pqGreater
  rw [List.getElem?_eq_getElem hi, List.getElem?_eq_getElem hj]

theorem pqSwap_eq {l : List α} {i j : Nat} (hi : i < l.length)
    (hj : j < l.length) : pqSwap l i j = (l.set i l[j]).set j l[i] := by
  unfold pqSwap
  rw [List.getElem?_eq_getElem hi, List.getElem?_eq_getElem hj]

theorem pqSwap_getElem? {l : List α} {i j : Nat} (hi : i < l.length)
    (hj : j < l.length) (k : Nat) :
    (pqSwap l i j)[k]? =
      if k = j then some l[i] else if k = i then some l[j] else l[k]? := by
  rw [pqSwap_eq hi hj, List.getElem?_set, List.getElem?_set]
  by_cases hkj : k = j
  · rw [if_pos hkj.symm, if_pos (by rw [List.length_set]; omega), if_pos hkj]
  · rw [if_neg (fun h => hkj h.symm), if_neg hkj]
    by_cases hki : k = i
    · rw [if_pos hki.symm, if_pos (by omega), if_pos hki]
    · rw [if_neg (fun h => hki h.symm), if_neg hki]

theorem pqSwap_perm (l : List α) (i j : Nat) (hi : i < l.length)
    (hj : j < l.length) : (pqSwap l i j).Perm l := by
  classical
  rw [List.perm_iff_count]
  intro a
  rw [pqSwap_eq hi hj]
  have hj' : j < (l.set i l[j]).length := by rw [List.length_set]; exact hj
  rw [List.count_set _ _ _ _ hj', List.count_set _ _ _ _ hi]
  have hset : (l.set i l[j])[j] = if i = j then l[j] else l[j] := List.getElem_set _
  rw [ite_self] at hset
  rw [hset]
  by_cases h1 : l[i] = a <;> by_cases h2 : l[j] = a
  · have c1 : 1 ≤ List.count a l := List.one_le_count_iff.mpr (h1 ▸ List.getElem_mem hi)
    simp [h1, h2]
    omega
  · have c1 : 1 ≤ List.count a l := List.one_le_count_iff.mpr (h1 ▸ List.getElem_mem hi)
    simp [beq_iff_eq, h1, h2]
    omega
  · have c2 : 1 ≤ List.count a l := List.one_le_count_iff.mpr (h2 ▸ List.getElem_mem hj)
    simp [beq_iff_eq, h1, h2]
  · simp [beq_iff_eq, h1, h2]

theorem pqSwap_getElem?_some {l : List α} {i j : Nat} (hi : i < l.length)
    (hj : j < l.length) (k : Nat) (hk : k < l.length) :
    (pqSwap l i j)[k]? =
      some (if k = j then l[i] else if k = i then l[j] else l[k]) := by
  rw [pqSwap_getElem? hi hj k]
  by_cases hkj : k = j
  · simp [hkj]
  · by_cases hki : k = i
    · subst hki
      simp [hkj]
    · simp [hkj, hki, List.getElem?_eq_getElem hk]

theorem pqGreater_swap {l : List α} {i j : Nat} (hi : i < l.length)
    (hj : j < l.length) {u v : Nat} (hu : u < l.length) (hv : v < l.length) :
    pqGreater ltb (pqSwap l i j) u v =
      ltb (if u = j then l[i] else if u = i then l[j] else l[u])
        (if v = j then l[i] else if v = i then l[j] else l[v]) := by
  unfold pqGreater
  rw [pqSwap_getElem?_some hi hj u hu, pqSwap_getElem?_some hi hj v hv]

theorem pqParent_lt {j : Nat} (h : 0 < j) : pqParent j < j := by
  unfold pqParent
  omega

theorem upAux_step
    (hasym : ∀ a b : α, ltb a b = true → ltb b a = false)
    (htrans : ∀ a b c : α, ltb a b = true → ltb b c = true → ltb a c = true)
    (hneg : ∀ a b c : α, ltb a b = false → ltb b c = false → ltb a c = false)
    {l : List α} {i : Nat} (h0 : 0 < i)
    (hgr : pqGreater ltb l i (pqParent i) = true) (hUp : UpAux ltb i l) :
    UpAux ltb (pqParent i) (pqSwap l i (pqParent i)) := by
  obtain ⟨hi, hp⟩ := pqGreater_bounds ltb hgr
  have hpi : pqParent i < i := pqParent_lt h0
  rw [pqGreater_def ltb hi hp] at hgr
  constructor
  · intro j hj0 hjlen hjne
    rw [pqSwap_len] at hjlen
    have hpj : pqParent j < j := pqParent_lt hj0
    have hpjlen : pqParent j < l.length := by omega
    rw [pqGreater_swap ltb hi hp hjlen hpjlen]
    by_cases hji : j = i
    · subst hji
      rw [if_neg (by omega), if_pos rfl, if_pos rfl]
      exact hasym _ _ hgr
    · by_cases hpar_i : pqParent j = i
      · rw [if_neg hjne, if_neg hji, if_neg (by omega), if_pos hpar_i]
        have := hUp.2 h0 j hjlen hpar_i
        rwa [pqGreater_def ltb hjlen hp] at this
      · by_cases hpar_p : pqParent j = pqParent i
        · rw [if_neg hjne, if_neg hji, if_pos hpar_p]
          have hs := hUp.1 j hj0 hjlen hji
          rw [hpar_p, pqGreater_def ltb hjlen hp] at hs
          cases hcon : ltb l[j] l[i] with
          | false => rfl
          | true => exact absurd (htrans _ _ _ hcon hgr) (by rw [hs]; simp)
        · rw [if_neg hjne, if_neg hji, if_neg hpar_p, if_neg hpar_i]
          have := hUp.1 j hj0 hjlen hji
          rwa [pqGreater_def ltb hjlen hpjlen] at this
  · intro hp0 c hclen hparc
    rw [pqSwap_len] at hclen
    have hc0 : 0 < c := by
      by_contra h
      have hceq : c = 0 := by omega
      rw [hceq] at hparc
      unfold pqParent at hparc hp0
      omega
    have hcp : pqParent c < c := pqParent_lt hc0
    have hpp : pqParent (pqParent i) < pqParent i := pqParent_lt hp0
    have hpplen : pqParent (pqParent i) < l.length := by omega
    rw [pqGreater_swap ltb hi hp hclen hpplen]
    by_cases hci : c = i
    · rw [if_neg (by omega), if_pos hci, if_neg (by omega), if_neg (by omega)]
      have := hUp.1 (pqParent i) hp0 hp (by omega)
      rwa [pqGreater_def ltb hp hpplen] at this
    · rw [if_neg (by omega), if_neg hci, if_neg (by omega), if_neg (by omega)]
      have h1 := hUp.1 c hc0 hclen hci
      rw [hparc, pqGreater_def ltb hclen hp] at h1
      have h2 := hUp.1 (pqParent i) hp0 hp (by omega)
      rw [pqGreater_def ltb hp hpplen] at h2
      exact hneg _ _ _ h1 h2

theorem pqSiftUp_inv
    (hasym : ∀ a b : α, ltb a b = true → ltb b a = false)
    (htrans : ∀ a b c : α, ltb a b = true → ltb b c = true → ltb a c = true)
    (hneg : ∀ a b c : α, ltb a b = false → ltb b c = false → ltb a c = false) :
    ∀ (l : List α) (i : Nat), UpAux ltb i l →
    InvP ltb (pqSiftUp ltb l i) := by
  refine pqSiftUp.induct ltb
    (motive := fun l i => UpAux ltb i l → InvP ltb (pqSiftUp ltb l i)) ?_ ?_
  · intro l node hcond ih hUp
    rw [pqSiftUp, if_pos hcond]
    exact ih (upAux_step ltb hasym htrans hneg hcond.1 hcond.2 hUp)
  · intro l node hcond hUp
    rw [pqSiftUp, if_neg hcond]
    unfold InvP
    intro j hj0 hjlen
    by_cases hji : j = node
    · subst hji
      by_cases hgr : pqGreater ltb l j (pqParent j) = true
      · exact absurd ⟨hj0, hgr⟩ hcond
      · simpa using hgr
    · exact hUp.1 j hj0 hjlen hji

theorem pqSiftUp_length : ∀ (l : List α) (i : Nat),
    (pqSiftUp ltb l i).length = l.length := by
  refine pqSiftUp.induct ltb
    (motive := fun l i => (pqSiftUp ltb l i).length = l.length) ?_ ?_
  · intro l node hcond ih
    rw [pqSiftUp, if_pos hcond, ih, pqSwap_len]
  · intro l node hcond
    rw [pqSiftUp, if_neg hcond]

theorem pqSiftUp_perm : ∀ (l : List α) (i : Nat),
    (pqSiftUp ltb l i).Perm l := by
  refine pqSiftUp.induct ltb
    (motive := fun l i => (pqSiftUp ltb l i).Perm l) ?_ ?_
  · intro l node hcond ih
    obtain ⟨hn, hp⟩ := pqGreater_bounds ltb hcond.2
    rw [pqSiftUp, if_pos hcond]
    exact ih.trans (pqSwap_perm _ _ _ hn hp)
  · intro l node hcond
    rw [pqSiftUp, if_neg hcond]

theorem pqSiftDown_eq (l : List α) (node : Nat) :
    pqSiftDown ltb l node =
      if (pqLeft node < l.length ∧ pqGreater ltb l (pqLeft node) node = true) ∨
          (pqRight node < l.length ∧ pqGreater ltb l (pqRight node) node = true) then
        pqSiftDown ltb (pqSwap l node (pqMaxChild ltb l node)) (pqMaxChild ltb l node)
      else l := by
  rw [pqSiftDown.eq_def]
  rfl

theorem pqMaxChild_lt {l : List α} {node : Nat}
    (hcond : (pqLeft node < l.length ∧ pqGreater ltb l (pqLeft node) node = true) ∨
      (pqRight node < l.length ∧ pqGreater ltb l (pqRight node) node = true)) :
    node < pqMaxChild ltb l node ∧ pqMaxChild ltb l node < l.length := by
  unfold pqMaxChild
  split
  · rename_i h
    refine ⟨?_, h.1⟩
    unfold pqRight
    omega
  · have hL : pqLeft node < l.length := by
      rcases hcond with ⟨h, _⟩ | ⟨h, _⟩
      · exact h
      · unfold pqLeft pqRight at *
        omega
    refine ⟨?_, hL⟩
    unfold pqLeft
    omega

theorem pqParent_eq_iff {i j : Nat} (h0 : 0 < j) :
    pqParent j = i ↔ (j = pqLeft i ∨ j = pqRight i) := by
  unfold pqParent pqLeft pqRight
  omega

theorem pqMaxChild_gr
    (htrans : ∀ a b c : α, ltb a b = true → ltb b c = true → ltb a c = true)
    (hneg : ∀ a b c : α, ltb a b = false → ltb b c = false → ltb a c = false)
    {l : List α} {node : Nat}
    (hcond : (pqLeft node < l.length ∧ pqGreater ltb l (pqLeft node) node = true) ∨
      (pqRight node < l.length ∧ pqGreater ltb l (pqRight node) node = true)) :
    pqGreater ltb l (pqMaxChild ltb l node) node = true := by
  have hnlen : node < l.length := by
    have h := pqMaxChild_lt ltb hcond
    omega
  unfold pqMaxChild
  split
  · rename_i h
    rcases hcond with ⟨hLlen, hgL⟩ | ⟨hRlen, hgR⟩
    · have h2 := h.2
      rw [pqGreater_def ltb h.1 hLlen] at h2
      rw [pqGreater_def ltb hLlen hnlen] at hgL
      rw [pqGreater_def ltb h.1 hnlen]
      exact htrans _ _ _ h2 hgL
    · exact hgR
  · rename_i h
    rcases hcond with ⟨hLlen, hgL⟩ | ⟨hRlen, hgR⟩
    · exact hgL
    · have hLlen : pqLeft node < l.length := by
        unfold pqLeft pqRight at *
        omega
      have hRL : pqGreater ltb l (pqRight node) (pqLeft node) = false := by
        cases hx : pqGreater ltb l (pqRight node) (pqLeft node) with
        | false => rfl
        | true => exact absurd ⟨hRlen, hx⟩ h
      rw [pqGreater_def ltb hRlen hnlen] at hgR
      rw [pqGreater_def ltb hRlen hLlen] at hRL
      rw [pqGreater_def ltb hLlen hnlen]
      cases hy : ltb (l.get ⟨pqLeft node, hLlen⟩) (l.get ⟨node, hnlen⟩) with
      | true => simp
      | false =>
        have := hneg _ _ _ hRL (by simpa using hy)
        rw [hgR] at this
        exact absurd this (by simp)

theorem pqMaxChild_other
    (hasym : ∀ a b : α, ltb a b = true → ltb b a = false)
    {l : List α} {node : Nat}
    (hcond : (pqLeft node < l.length ∧ pqGreater ltb l (pqLeft node) node = true) ∨
      (pqRight node < l.length ∧ pqGreater ltb l (pqRight node) node = true))
    {j : Nat} (hj0 : 0 < j) (hjlen : j < l.length) (hpar : pqParent j = node)
    (hjne : j ≠ pqMaxChild ltb l node) :
    pqGreater ltb l j (pqMaxChild ltb l node) = false := by
  have hj' : j = pqLeft node ∨ j = pqRight node := (pqParent_eq_iff hj0).mp hpar
  by_cases hx : pqRight node < l.length ∧
      pqGreater ltb l (pqRight node) (pqLeft node) = true
  · rw [pqMaxChild, if_pos hx] at hjne ⊢
    have hjL : j = pqLeft node := by
      rcases hj' with h | h
      · exact h
      · exact absurd h hjne
    subst hjL
    have h2 := hx.2
    rw [pqGreater_def ltb hx.1 hjlen] at h2
    rw [pqGreater_def ltb hjlen hx.1]
    exact hasym _ _ h2
  · rw [pqMaxChild, if_neg hx] at hjne ⊢
    have hjR : j = pqRight node := by
      rcases hj' with h | h
      · exact absurd h hjne
      · exact h
    subst hjR
    cases hy : pqGreater ltb l (pqRight node) (pqLeft node) with
    | false => rfl
    | true => exact absurd ⟨hjlen, hy⟩ hx

theorem pqSiftDown_length : ∀ (l : List α) (i : Nat),
    (pqSiftDown ltb l i).length = l.length := by
  refine pqSiftDown.induct ltb
    (motive := fun l i => (pqSiftDown ltb l i).length = l.length) ?_ ?_
  · intro l node hcond mc ih
    rw [pqSiftDown_eq, if_pos hcond]
    have ih' : (pqSiftDown ltb (pqSwap l node (pqMaxChild ltb l node))
        (pqMaxChild ltb l node)).length =
        (pqSwap l node (pqMaxChild ltb l node)).length := ih
    rw [ih', pqSwap_len]
  · intro l node hcond
    rw [pqSiftDown_eq, if_neg hcond]

theorem pqSiftDown_perm : ∀ (l : List α) (i : Nat),
    (pqSiftDown ltb l i).Perm l := by
  refine pqSiftDown.induct ltb
    (motive := fun l i => (pqSiftDown ltb l i).Perm l) ?_ ?_
  · intro l node hcond mc ih
    obtain ⟨hgt, hlt⟩ := pqMaxChild_lt ltb hcond
    rw [pqSiftDown_eq, if_pos hcond]
    have ih' : (pqSiftDown ltb (pqSwap l node (pqMaxChild ltb l node))
        (pqMaxChild ltb l node)).Perm (pqSwap l node (pqMaxChild ltb l node)) := ih
    exact ih'.trans (pqSwap_perm _ _ _ (by omega) hlt)
  · intro l node hcond
    rw [pqSiftDown_eq, if_neg hcond]

theorem downAux_step
    (hasym : ∀ a b : α, ltb a b = true → ltb b a = false)
    (htrans : ∀ a b c : α, ltb a b = true → ltb b c = true → ltb a c = true)
    (hneg : ∀ a b c : α, ltb a b = false → ltb b c = false → ltb a c = false)
    {l : List α} {i : Nat}
    (hcond : (pqLeft i < l.length ∧ pqGreater ltb l (pqLeft i) i = true) ∨
      (pqRight i < l.length ∧ pqGreater ltb l (pqRight i) i = true))
    (hD : DownAux ltb i l) :
    DownAux ltb (pqMaxChild ltb l i) (pqSwap l i (pqMaxChild ltb l i)) := by
  obtain ⟨himc, hmclen⟩ := pqMaxChild_lt ltb hcond
  have hilen : i < l.length := by omega
  have hgrmc := pqMaxChild_gr ltb htrans hneg hcond
  rw [pqGreater_def ltb hmclen hilen] at hgrmc
  have hparmc : pqParent (pqMaxChild ltb l i) = i := by
    have hor : pqMaxChild ltb l i = pqLeft i ∨ pqMaxChild ltb l i = pqRight i := by
      unfold pqMaxChild
      split
      · right
        rfl
      · left
        rfl
    rcases hor with h | h <;> rw [h] <;> simp only [pqParent, pqLeft, pqRight] <;> omega
  constructor
  · intro j hj0 hjlen hpne
    rw [pqSwap_len] at hjlen
    have hpj : pqParent j < j := pqParent_lt hj0
    have hpjlen : pqParent j < l.length := by omega
    rw [pqGreater_swap ltb hilen hmclen hjlen hpjlen]
    by_cases hjm : j = pqMaxChild ltb l i
    · rw [if_pos hjm, if_neg hpne, if_pos (by rw [hjm]; exact hparmc)]
      exact hasym _ _ hgrmc
    · by_cases hji : j = i
      · subst hji
        rw [if_neg hjm, if_pos rfl, if_neg hpne, if_neg (by omega)]
        have h2 := hD.2 (by omega) (pqMaxChild ltb l j) hmclen hparmc
        rwa [pqGreater_def ltb hmclen hpjlen] at h2
      · by_cases hpi : pqParent j = i
        · rw [if_neg hjm, if_neg hji, if_neg hpne, if_pos hpi]
          have h3 := pqMaxChild_other ltb hasym hcond hj0 hjlen hpi hjm
          rwa [pqGreater_def ltb hjlen hmclen] at h3
        · rw [if_neg hjm, if_neg hji, if_neg hpne, if_neg hpi]
          have h4 := hD.1 j hj0 hjlen hpi
          rwa [pqGreater_def ltb hjlen hpjlen] at h4
  · intro hm0 c hclen hparc
    rw [pqSwap_len] at hclen
    have hc0 : 0 < c := by
      by_contra h
      have hceq : c = 0 := by omega
      rw [hceq] at hparc
      unfold pqParent at hparc
      omega
    have hcm : pqMaxChild ltb l i < c := by
      have := pqParent_lt hc0
      omega
    rw [pqGreater_swap ltb hilen hmclen hclen (by rw [hparmc]; exact hilen)]
    rw [if_neg (by omega), if_neg (by omega)]
    rw [if_neg (by rw [hparmc]; omega), if_pos hparmc]
    have h5 := hD.1 c hc0 hclen (by rw [hparc]; omega)
    rw [hparc] at h5
    rwa [pqGreater_def ltb hclen hmclen] at h5

theorem pqSiftDown_inv
    (hasym : ∀ a b : α, ltb a b = true → ltb b a = false)
    (htrans : ∀ a b c : α, ltb a b = true → ltb b c = true → ltb a c = true)
    (hneg : ∀ a b c : α, ltb a b = false → ltb b c = false → ltb a c = false) :
    ∀ (l : List α) (i : Nat), DownAux ltb i l →
    InvP ltb (pqSiftDown ltb l i) := by
  refine pqSiftDown.induct ltb
    (motive := fun l i => DownAux ltb i l → InvP ltb (pqSiftDown ltb l i)) ?_ ?_
  · intro l node hcond mc ih hD
    rw [pqSiftDown_eq, if_pos hcond]
    have ih' : DownAux ltb (pqMaxChild ltb l node)
        (pqSwap l node (pqMaxChild ltb l node)) →
        InvP ltb (pqSiftDown ltb (pqSwap l node (pqMaxChild ltb l node))
          (pqMaxChild ltb l node)) := ih
    exact ih' (downAux_step ltb hasym htrans hneg hcond hD)
  · intro l node hcond hD
    rw [pqSiftDown_eq, if_neg hcond]
    unfold InvP
    intro j hj0 hjlen
    by_cases hpj : pqParent j = node
    · have hj' := (pqParent_eq_iff hj0).mp hpj
      cases hgr : pqGreater ltb l j (pqParent j) with
      | false => rfl
      | true =>
        exfalso
        rw [hpj] at hgr
        rcases hj' with h | h
        · rw [h] at hgr hjlen
          exact hcond (Or.inl ⟨hjlen, hgr⟩)
        · rw [h] at hgr hjlen
          exact hcond (Or.inr ⟨hjlen, hgr⟩)
    · exact hD.1 j hj0 hjlen hpj

theorem invP_min
    (hirr : ∀ a : α, ltb a a = false)
    (hneg : ∀ a b c : α, ltb a b = false → ltb b c = false → ltb a c = false)
    {l : List α} (hInv : InvP ltb l) (h0 : 0 < l.length) :
    ∀ x ∈ l, ltb x l[0] = false := by
  have key : ∀ j, ∀ hjlt : j < l.length, ltb l[j] l[0] = false := by
    intro j
    induction j using Nat.strong_induction_on with
    | _ j ih =>
      intro hjlt
      rcases Nat.eq_zero_or_pos j with hz | hz
      · subst hz
        exact hirr _
      · have hpj : pqParent j < j := pqParent_lt hz
        have h1 := hInv j hz hjlt
        rw [pqGreater_def ltb hjlt (by omega)] at h1
        exact hneg _ _ _ h1 (ih (pqParent j) hpj (by omega))
  intro x hx
  obtain ⟨j, hj, hjx⟩ := List.mem_iff_getElem.mp hx
  subst hjx
  exact key j hj

theorem heapInv_iff {l : List α} : heapInv ltb l = true ↔ InvP ltb l := by
  unfold heapInv InvP
  rw [List.all_eq_true]
  constructor
  · intro h j hj0 hjlen
    have h1 := h j (List.mem_range.mpr hjlen)
    simp only [Bool.or_eq_true, decide_eq_true_eq, Bool.not_eq_true'] at h1
    rcases h1 with h1 | h1
    · omega
    · exact h1
  · intro h j hjmem
    rw [List.mem_range] at hjmem
    rcases Nat.eq_zero_or_pos j with hz | hz
    · simp [hz]
    · simp [h j hz hjmem]

theorem upAux_append {l : List α} {x : α} (hInv : InvP ltb l) :
    UpAux ltb l.length (l ++ [x]) := by
  constructor
  · intro j hj0 hjlen hjne
    rw [List.length_append, List.length_singleton] at hjlen
    have hjl : j < l.length := by omega
    have hpj : pqParent j < j := pqParent_lt hj0
    have h1 := hInv j hj0 hjl
    unfold pqGreater at h1 ⊢
    rw [List.getElem?_append_left (by omega), List.getElem?_append_left (by omega)]
    exact h1
  · intro h0 c hclen hparc
    rw [List.length_append, List.length_singleton] at hclen
    have hpc : pqParent c < c := by
      rcases Nat.eq_zero_or_pos c with hz | hz
      · rw [hz] at hparc
        unfold pqParent at hparc
        omega
      · exact pqParent_lt hz
    exfalso
    omega

theorem pqPush_inv
    (hasym : ∀ a b : α, ltb a b = true → ltb b a = false)
    (htrans : ∀ a b c : α, ltb a b = true → ltb b c = true → ltb a c = true)
    (hneg : ∀ a b c : α, ltb a b = false → ltb b c = false → ltb a c = false)
    {l : List α} (hInv : InvP ltb l) (x : α) :
    InvP ltb (pqPush ltb l x) := by
  unfold pqPush
  exact pqSiftUp_inv ltb hasym htrans hneg _ _ (upAux_append ltb hInv)

theorem pqPush_perm (l : List α) (x : α) :
    (pqPush ltb l x).Perm (l ++ [x]) := pqSiftUp_perm ltb _ _

theorem pqPop_ok {l : List α} (h0 : 0 < l.length) :
    pqPop ltb l = .ok (l[0], pqSiftDown ltb
      (if 0 < l.length - 1 then pqSwap l 0 (l.length - 1) else l).dropLast 0) := by
  unfold pqPop
  rw [List.getElem?_eq_getElem h0]

theorem getElem?_dropLast_eq {L : List α} {j : Nat} (h : j < L.length - 1) :
    L.dropLast[j]? = L[j]? := by
  have h1 : j < L.dropLast.length := by
    rw [List.length_dropLast]
    exact h
  have h2 : j < L.length := by omega
  rw [List.getElem?_eq_getElem h1, List.getElem?_eq_getElem h2]
  rw [List.getElem_dropLast]

theorem getElem_cons_dropLast_perm {L : List α} {k : Nat} (hk : k < L.length)
    (hkl : k = L.length - 1) : (L.get ⟨k, hk⟩ :: L.dropLast).Perm L := by
  have hne : L ≠ [] := List.length_pos.mp (by omega)
  have key := List.dropLast_append_getLast hne
  rw [List.getLast_eq_getElem L hne] at key
  have hb : L.length - 1 < L.length := by omega
  have hgz : L.get ⟨k, hk⟩ = L[L.length - 1] := by
    subst hkl
    rfl
  rw [hgz]
  have p2 : (L[L.length - 1] :: L.dropLast).Perm
      (L.dropLast ++ [L[L.length - 1]]) :=
    (List.perm_append_singleton _ _).symm
  rw [key] at p2
  exact p2

theorem pqGreater_congr {L M : List α} {i j : Nat} (hi : L[i]? = M[i]?)
    (hj : L[j]? = M[j]?) : pqGreater ltb L i j = pqGreater ltb M i j := by
  unfold pqGreater
  rw [hi, hj]

theorem pqPop_rest_perm {l : List α} (h0 : 0 < l.length) :
    (l[0] :: pqSiftDown ltb
      (if 0 < l.length - 1 then pqSwap l 0 (l.length - 1) else l).dropLast 0).Perm
      l := by
  rcases Nat.lt_or_ge l.length 2 with hlen | hlen
  · have hl1 : l.length = 1 := by omega
    rw [if_neg (by omega)]
    have hd : l.dropLast = [] := List.length_eq_zero.mp (by
      rw [List.length_dropLast]
      omega)
    rw [hd, pqSiftDown_eq, if_neg (by
      rintro (⟨h, _⟩ | ⟨h, _⟩) <;> simp [pqLeft, pqRight] at h)]
    obtain ⟨a, ha⟩ := List.length_eq_one.mp hl1
    subst ha
    simp
  · rw [if_pos (by omega)]
    have hblen : l.length - 1 < l.length := by omega
    have hswlen : (pqSwap l 0 (l.length - 1)).length = l.length := pqSwap_len _ _ _
    have hLb : (pqSwap l 0 (l.length - 1)).get ⟨l.length - 1, by omega⟩ = l[0] := by
      have h2 := pqSwap_getElem?_some h0 hblen (l.length - 1) hblen
      rw [if_pos rfl] at h2
      have h3 := List.getElem?_eq_getElem
        (l := pqSwap l 0 (l.length - 1)) (n := l.length - 1) (by omega)
      rw [h3] at h2
      simpa using h2
    refine ((pqSiftDown_perm ltb _ 0).cons l[0]).trans ?_
    rw [← hLb]
    exact (getElem_cons_dropLast_perm (by omega) (by omega)).trans
      (pqSwap_perm l 0 (l.length - 1) h0 hblen)

theorem pqPop_rest_inv
    (hasym : ∀ a b : α, ltb a b = true → ltb b a = false)
    (htrans : ∀ a b c : α, ltb a b = true → ltb b c = true → ltb a c = true)
    (hneg : ∀ a b c : α, ltb a b = false → ltb b c = false → ltb a c = false)
    {l : List α} (hInv : InvP ltb l) (h0 : 0 < l.length) :
    InvP ltb (pqSiftDown ltb
      (if 0 < l.length - 1 then pqSwap l 0 (l.length - 1) else l).dropLast 0) := by
  apply pqSiftDown_inv ltb hasym htrans hneg
  refine ⟨?_, fun h00 => absurd h00 (by omega)⟩
  intro j hj0 hjlen hpne
  by_cases hb : 0 < l.length - 1
  · rw [if_pos hb] at hjlen ⊢
    rw [List.length_dropLast, pqSwap_len] at hjlen
    have hblen : l.length - 1 < l.length := by omega
    have hpj : pqParent j < j := pqParent_lt hj0
    have hu : ((pqSwap l 0 (l.length - 1)).dropLast)[j]? = l[j]? := by
      rw [getElem?_dropLast_eq (by rw [pqSwap_len]; omega),
        pqSwap_getElem?_some h0 hblen j (by omega), if_neg (by omega),
        if_neg (by omega), List.getElem?_eq_getElem (by omega)]
    have hv : ((pqSwap l 0 (l.length - 1)).dropLast)[pqParent j]? =
        l[pqParent j]? := by
      rw [getElem?_dropLast_eq (by rw [pqSwap_len]; omega),
        pqSwap_getElem?_some h0 hblen (pqParent j) (by omega),
        if_neg (by omega), if_neg hpne, List.getElem?_eq_getElem (by omega)]
    rw [pqGreater_congr ltb hu hv]
    exact hInv j hj0 (by omega)
  · rw [if_neg hb] at hjlen
    rw [List.length_dropLast] at hjlen
    exact absurd hjlen (by omega)

end HeapVerification

/-- The open-list ordering characterised arithmetically: `a` precedes `b`
iff `a.f < b.f`, with ties (equal `f`) broken towards the larger `g`. -/
theorem sLt_iff (a b : SNode) :
    sLt a b = true ↔ (a.f < b.f ∨ (a.f = b.f ∧ b.g < a.g)) := by
  unfold sLt
  split_ifs with h
  · rw [decide_eq_true_eq]
    constructor
    · intro hg
      exact Or.inr ⟨h, hg⟩
    · rintro (hf | ⟨_, hg⟩)
      · rw [h] at hf
        exact absurd hf (lt_irrefl _)
      · exact hg
  · rw [decide_eq_true_eq]
    constructor
    · intro hf
      exact Or.inl hf
    · rintro (hf | ⟨hf, _⟩)
      · exact hf
      · exact absurd hf h

/-- The open-list ordering is irreflexive. -/
theorem sLt_irrefl (a : SNode) : sLt a a = false := by
  cases h : sLt a a with
  | false => rfl
  | true =>
    exfalso
    rw [sLt_iff] at h
    rcases h with hf | ⟨_, hg⟩ <;> linarith

/-- The open-list ordering is asymmetric. -/
theorem sLt_asym (a b : SNode) (h : sLt a b = true) : sLt b a = false := by
  cases h2 : sLt b a with
  | false => rfl
  | true =>
    exfalso
    rw [sLt_iff] at h h2
    rcases h with hf | ⟨hf, hg⟩ <;> rcases h2 with hf2 | ⟨hf2, hg2⟩ <;> linarith

/-- The open-list ordering is transitive. -/
theorem sLt_trans (a b c : SNode) (h1 : sLt a b = true) (h2 : sLt b c = true) :
    sLt a c = true := by
  rw [sLt_iff] at h1 h2 ⊢
  rcases h1 with hf | ⟨hf, hg⟩ <;> rcases h2 with hf2 | ⟨hf2, hg2⟩
  · exact Or.inl (by linarith)
  · exact Or.inl (by linarith)
  · exact Or.inl (by linarith)
  · exact Or.inr ⟨by linarith, by linarith⟩

/-- The open-list ordering is negatively transitive. -/
theorem sLt_negtrans (a b c : SNode) (h1 : sLt a b = false)
    (h2 : sLt b c = false) : sLt a c = false := by
  cases h : sLt a c with
  | false => rfl
  | true =>
    exfalso
    rw [sLt_iff] at h
    have n1 : ¬(a.f < b.f ∨ (a.f = b.f ∧ b.g < a.g)) := by
      rw [← sLt_iff, h1]
      simp
    have n2 : ¬(b.f < c.f ∨ (b.f = c.f ∧ c.g < b.g)) := by
      rw [← sLt_iff, h2]
      simp
    push_neg at n1 n2
    rcases h with hf | ⟨hf, hg⟩
    · linarith [n1.1, n2.1]
    · have h3 : a.f = b.f := le_antisymm (by linarith [n2.1]) n1.1
      have h4 : b.f = c.f := le_antisymm (by linarith [n1.1]) n2.1
      linarith [n1.2 h3, n2.2 h4]

/-- **C9.** Priority-queue `pop` fails on an empty queue; on any queue
satisfying the heap invariant it removes and returns the top element, which
is minimal under the open-list comparator — the ordering in which node `a`
precedes node `b` iff `a.f < b.f`, with ties (equal `f`) broken by
preferring the larger `g` — the multiset of remaining elements is exactly
the old queue minus that element, and the invariant is preserved by both
`pop` and `push`. -/
theorem c9_priority_queue :
    (pqPop sLt ([] : List SNode) =
      .error "Cannot pop from an empty priority queue") ∧
    (∀ a b : SNode, sLt a b = true ↔ (a.f < b.f ∨ (a.f = b.f ∧ b.g < a.g))) ∧
    (∀ (l : List SNode) (h0 : 0 < l.length), heapInv sLt l = true →
      ∃ rest, pqPop sLt l = .ok (l[0], rest) ∧
        (∀ x ∈ l, sLt x l[0] = false) ∧
        (l[0] :: rest).Perm l ∧
        heapInv sLt rest = true) ∧
    (∀ (l : List SNode) (x : SNode), heapInv sLt l = true →
      heapInv sLt (pqPush sLt l x) = true ∧
        (pqPush sLt l x).Perm (l ++ [x])) := by
  refine ⟨rfl, sLt_iff, ?_, ?_⟩
  · intro l h0 hinv
    rw [heapInv_iff] at hinv
    refine ⟨_, pqPop_ok sLt h0, ?_, pqPop_rest_perm sLt h0, ?_⟩
    · exact invP_min sLt sLt_irrefl sLt_negtrans hinv h0
    · rw [heapInv_iff]
      exact pqPop_rest_inv sLt sLt_asym sLt_trans sLt_negtrans hinv h0
  · intro l x hinv
    rw [heapInv_iff] at hinv
    refine ⟨?_, pqPush_perm sLt l x⟩
    rw [heapInv_iff]
    exact pqPush_inv sLt sLt_asym sLt_trans sLt_negtrans hinv x

/-- Fixture: a search node with `f = 0`. -/
def wNode9a : SNode := .mk none pInside vA.pt vB.pt none none triPoly 0 0 pInside2

/-- Fixture: a search node with `f = 1`. -/
def wNode9b : SNode := .mk none pInside vA.pt vB.pt none none triPoly 0 1 pInside2

theorem c9_priority_queue_witness :
    heapInv sLt [wNode9a, wNode9b] = true ∧
    (∃ rest, pqPop sLt [wNode9a, wNode9b] = .ok (wNode9a, rest) ∧
      (∀ x ∈ [wNode9a, wNode9b], sLt x wNode9a = false) ∧
      (wNode9a :: rest).Perm [wNode9a, wNode9b] ∧
      heapInv sLt rest = true) := by
  have hinv : heapInv sLt [wNode9a, wNode9b] = true := by
    norm_num [heapInv, List.range_succ, pqGreater, pqParent, sLt, SNode.f,
      SNode.g, SNode.h, wNode9a, wNode9b]
  refine ⟨hinv, ?_⟩
  have h := c9_priority_queue.2.2.1 [wNode9a, wNode9b] (by simp) hinv
  simpa using h

end SphPoly
